import Mathlib

/-!
# GreedyGamesAssignment: the sharded in-memory store of `DBCore/DBCoreApproach2.go`

A shallow embedding of the key/value store (`Set`, `Get`, the sweep of the reaper), of the
named LIFO queues (`Push`, `Pop`, `BQPOP`) built on a Treiber stack with an elimination
array, and of the command validation of `Models/Models.go`, followed by the properties
established about them.

Conventions of the embedding

* `time.Time` and `time.Duration` are integers counting nanoseconds; every
  reading of `time.Now()` is an explicit argument `now`.
* A Go `map[string]T` is an association list with at most one binding per key.
* `unsafe.Pointer` to a `StackNode` is `Ptr`: `none` is `nil`, `some a` is the
  address of the `a`-th node allocated for the stack.
* `rand.Intn(numEliminationSlots)` is an explicit argument `index`.
* Methods of `*DB` take the database and return the new database together with
  the Go results.  The shard locks are taken and released inside every method
  and are therefore not part of the state between two calls.
* Concurrent calls are lists of program points stepping in the order of a
  schedule: `PC` and `System` for the stack, `QPC` and `QSystem` for a queue.
* `strings.ToUpper` is an argument of the validators; `strconv.Atoi` is `Atoi`.
-/

namespace DBCore

/-! ## Time -/

/-- Go `time.Time`: an instant, in nanoseconds on one time line. -/
abbrev Time := Int

/-- Go `time.Duration`: a signed number of nanoseconds. -/
abbrev Duration := Int

/-- Go `time.Microsecond`. -/
def Microsecond : Duration := 1000

/-- Go `time.Second`. -/
def Second : Duration := 1000000000

/-- Go `time.Hour`. -/
def Hour : Duration := 3600 * Second

/-- Go `t.After(u)`: `t` is strictly later than `u`. -/
def Time.After (t u : Time) : Bool := decide (u < t)

/-- Go `t.Add(d)`. -/
def Time.Add (t : Time) (d : Duration) : Time := t + d

/-- Two's complement wrap of an integer into the range of `int64`. -/
def wrapInt64 (x : Int) : Int := (x + 2 ^ 63) % 2 ^ 64 - 2 ^ 63

/-! ## Constants and errors -/

/-- Source constant `numShards`. -/
def numShards : Nat := 256

/-- Source constant `numEliminationSlots`. -/
def numEliminationSlots : Nat := 8

/-- Source constant `eliminationTimeout`. -/
def eliminationTimeout : Duration := 10 * Microsecond

/-- The error values returned by the methods of `DB`. -/
inductive Err where
  /-- Package variable `ErrBlocked`. -/
  | ErrBlocked
  /-- Package variable `ErrEmpty`. -/
  | ErrEmpty
  /-- The value `errors.New("key already exists")`. -/
  | keyAlreadyExists
  /-- The value `errors.New("key does not exist")`. -/
  | keyDoesNotExist
  /-- The value `errors.New("queue does not exist")`. -/
  | queueDoesNotExist
deriving DecidableEq, Repr

/-- Text of an error, as `err.Error()` returns it. -/
def Err.Error : Err → String
  | .ErrBlocked => "another client is already waiting on this queue"
  | .ErrEmpty => "queue is empty"
  | .keyAlreadyExists => "key already exists"
  | .keyDoesNotExist => "key does not exist"
  | .queueDoesNotExist => "queue does not exist"

/-! ## Go maps -/

/-- A Go `map[string]β`: the bindings, at most one per key. -/
structure GoMap (β : Type) where
  /-- The bindings of the map. -/
  entries : List (String × β)
deriving DecidableEq, Repr

/-- The result of `make(map[string]β)`. -/
def GoMap.empty {β : Type} : GoMap β := ⟨[]⟩

/-- The lookup `v, ok := m[key]`: `none` when `ok` is false. -/
def GoMap.get {β : Type} (m : GoMap β) (key : String) : Option β :=
  (m.entries.find? (fun p => p.1 == key)).map (fun p => p.2)

/-- The statement `delete(m, key)`. -/
def GoMap.delete {β : Type} (m : GoMap β) (key : String) : GoMap β :=
  ⟨m.entries.filter (fun p => p.1 != key)⟩

/-- The assignment `m[key] = v`. -/
def GoMap.set {β : Type} (m : GoMap β) (key : String) (v : β) : GoMap β :=
  ⟨(key, v) :: (m.delete key).entries⟩

/-! ## Entry types -/

/-- The payloads stored as `interface{}`: the handler only stores strings. -/
abbrev Payload := String

/-- Source type `Entry`. -/
structure Entry where
  /-- Field `Value`. -/
  Value : Payload
  /-- Field `ExpiresAt`. -/
  ExpiresAt : Time
deriving DecidableEq, Repr

/-- The zero value of `Entry`, which a failed map lookup yields. -/
instance : Inhabited Entry := ⟨⟨"", 0⟩⟩

/-- A pointer to a `StackNode`: `none` is `nil`. -/
abbrev Ptr := Option Nat

/-- Source type `StackNode`. -/
structure StackNode where
  /-- Field `Value`. -/
  Value : Payload
  /-- Field `Next`. -/
  Next : Ptr
deriving DecidableEq, Repr

/-- The zero value of `StackNode`. -/
instance : Inhabited StackNode := ⟨⟨"", none⟩⟩

/-! ## Elimination array -/

/-- Source type `EliminationArray`: `numEliminationSlots` atomic pointer cells. -/
structure EliminationArray where
  /-- Field `slots`. -/
  slots : Fin numEliminationSlots → Ptr

/-- Go `atomic.StorePointer(&e.slots[index], v)`. -/
def EliminationArray.StorePointer (e : EliminationArray) (index : Fin numEliminationSlots)
    (v : Ptr) : EliminationArray :=
  ⟨fun j => if j = index then v else e.slots j⟩

/-- Go `atomic.SwapPointer(&e.slots[index], new)`: the old content and the new array. -/
def EliminationArray.SwapPointer (e : EliminationArray) (index : Fin numEliminationSlots)
    (new : Ptr) : Ptr × EliminationArray :=
  (e.slots index, e.StorePointer index new)

/-- Go `atomic.CompareAndSwapPointer(&e.slots[index], old, new)`. -/
def EliminationArray.CompareAndSwapPointer (e : EliminationArray)
    (index : Fin numEliminationSlots) (old new : Ptr) : Bool × EliminationArray :=
  if e.slots index = old then (true, e.StorePointer index new) else (false, e)

/-- Source method `EliminationArray.exchange`, run without interruption; `index` is the
value of `rand.Intn(numEliminationSlots)`. -/
def EliminationArray.exchange (e : EliminationArray) (index : Fin numEliminationSlots)
    (value : Ptr) : Ptr × EliminationArray :=
  let (previous, e) := e.SwapPointer index value
  if previous ≠ none then
    (previous, e.StorePointer index none)
  else
    -- time.Sleep(eliminationTimeout)
    let (_, e) := e.CompareAndSwapPointer index value none
    (none, e)

/-! ## Treiber stack -/

/-- Source type `TreiberStack`.  The field `nodes` is the memory of the embedding: the
`StackNode`s allocated by `Push` on this stack, the pointer `some a` denoting `nodes[a]`. -/
structure TreiberStack where
  /-- Field `top`. -/
  top : Ptr
  /-- Field `elimination`. -/
  elimination : EliminationArray
  /-- The nodes allocated so far, by address. -/
  nodes : List StackNode

/-- The node a non-nil pointer refers to. -/
def TreiberStack.node (s : TreiberStack) (a : Nat) : StackNode := s.nodes.getD a default

/-- The allocation `&StackNode{Value: value}`: the new address and the new memory. -/
def TreiberStack.newNode (s : TreiberStack) (value : Payload) : Nat × TreiberStack :=
  (s.nodes.length, { s with nodes := s.nodes ++ [⟨value, none⟩] })

/-- The assignment `node.Next = next` for the node at address `a`. -/
def TreiberStack.setNext (s : TreiberStack) (a : Nat) (next : Ptr) : TreiberStack :=
  { s with nodes := s.nodes.set a { s.node a with Next := next } }

/-- Go `atomic.CompareAndSwapPointer(&s.top, old, new)`. -/
def TreiberStack.CompareAndSwapTop (s : TreiberStack) (old new : Ptr) : Bool × TreiberStack :=
  if s.top = old then (true, { s with top := new }) else (false, s)

/-- The `for` loop of `TreiberStack.Push`, run without interruption for at most `fuel`
rounds; `none` when the rounds are used up. -/
def TreiberStack.pushLoop : Nat → TreiberStack → Nat → Option TreiberStack
  | 0, _, _ => none
  | fuel + 1, s, newNode =>
    let oldTop := s.top
    let s := s.setNext newNode oldTop
    let (swapped, s) := s.CompareAndSwapTop oldTop (some newNode)
    if swapped then some s else TreiberStack.pushLoop fuel s newNode

/-- Source method `TreiberStack.Push`, run without interruption. -/
def TreiberStack.Push (s : TreiberStack) (value : Payload) (index : Fin numEliminationSlots)
    (fuel : Nat) : Option TreiberStack :=
  let (newNode, s) := s.newNode value
  let valuePtr : Ptr := some newNode
  let (exchanged, e) := s.elimination.exchange index valuePtr
  let s := { s with elimination := e }
  if exchanged = none then s.pushLoop fuel newNode else some s

/-- The Go result pair `(interface{}, error)` of the pop operations. -/
inductive Result where
  /-- The pair `(value, nil)`. -/
  | ok (value : Payload)
  /-- The pair `(nil, err)`. -/
  | error (err : Err)
deriving DecidableEq, Repr

/-- The `for` loop of `TreiberStack.Pop`, run without interruption for at most `fuel`
rounds; `none` when the rounds are used up. -/
def TreiberStack.popLoop : Nat → TreiberStack → Option (TreiberStack × Result)
  | 0, _ => none
  | fuel + 1, s =>
    match s.top with
    | none => some (s, .error .ErrEmpty)
    | some oldTop =>
      let newTop := (s.node oldTop).Next
      let (swapped, s1) := s.CompareAndSwapTop (some oldTop) newTop
      if swapped then some (s1, .ok (s1.node oldTop).Value) else TreiberStack.popLoop fuel s1

/-- Source method `TreiberStack.Pop`, run without interruption. -/
def TreiberStack.Pop (s : TreiberStack) (index : Fin numEliminationSlots) (fuel : Nat) :
    Option (TreiberStack × Result) :=
  let (exchanged, e) := s.elimination.exchange index none
  let s := { s with elimination := e }
  match exchanged with
  | some a => some (s, .ok (s.node a).Value)
  | none => s.popLoop fuel

/-! ## Queue with blocking support -/

/-- Go `sync.Mutex`, recording which caller holds it. -/
structure Mutex where
  /-- The caller holding the mutex, `none` when it is free. -/
  holder : Option Nat
deriving DecidableEq, Repr

/-- Go `m.TryLock()` by `caller`. -/
def Mutex.TryLock (m : Mutex) (caller : Nat) : Bool × Mutex :=
  match m.holder with
  | none => (true, ⟨some caller⟩)
  | some _ => (false, m)

/-- Go `m.Unlock()`. -/
def Mutex.Unlock (_m : Mutex) : Mutex := ⟨none⟩

/-- Source type `QueueWithBlocking`; `signal` counts the items buffered in the channel
`make(chan struct{}, 1)`. -/
structure QueueWithBlocking where
  /-- Field `stack`. -/
  stack : TreiberStack
  /-- Field `isBlocked`. -/
  isBlocked : Int
  /-- Field `readLock`. -/
  readLock : Mutex
  /-- Field `signal`: the number of buffered items, at most one. -/
  signal : Nat

/-- Source function `NewQueueWithBlocking`. -/
def NewQueueWithBlocking : QueueWithBlocking :=
  { stack := { top := none, elimination := ⟨fun _ => none⟩, nodes := [] },
    isBlocked := 0, readLock := ⟨none⟩, signal := 0 }

/-- The non-blocking send `select { case q.signal <- struct{}{}: default: }`. -/
def QueueWithBlocking.trySend (q : QueueWithBlocking) : QueueWithBlocking :=
  if q.signal < 1 then { q with signal := q.signal + 1 } else q

/-! ## Shards and database -/

/-- Source type `Shard`. -/
structure Shard where
  /-- Field `data`. -/
  data : GoMap Entry
deriving DecidableEq, Repr

/-- Source type `QueueShard`; the map holds the queue objects themselves. -/
structure QueueShard where
  /-- Field `queues`. -/
  queues : GoMap QueueWithBlocking

/-- Source type `DB`, without the ticker and the stop channel of the reaper. -/
structure DB where
  /-- Field `shards`. -/
  shards : Fin numShards → Shard
  /-- Field `queueShards`. -/
  queueShards : Fin numShards → QueueShard

/-- Source function `NewDB`: every shard starts with an empty map. -/
def NewDB : DB :=
  { shards := fun _ => ⟨GoMap.empty⟩, queueShards := fun _ => ⟨GoMap.empty⟩ }

/-- The 32-bit FNV-1a offset basis of `hash/fnv`. -/
def fnvOffset32 : Nat := 2166136261

/-- The 32-bit FNV-1a prime of `hash/fnv`. -/
def fnvPrime32 : Nat := 16777619

/-- Go `h.Write(bytes)` on a `fnv.New32a()` hash with state `h`. -/
def fnv32aWrite (h : Nat) (bytes : List Nat) : Nat :=
  bytes.foldl (fun h b => ((h ^^^ b) * fnvPrime32) % 2 ^ 32) h

/-- The bytes `[]byte(key)` of a string. -/
def keyBytes (key : String) : List Nat :=
  (key.data.flatMap String.utf8EncodeChar).map UInt8.toNat

/-- Source function `hashKey`. -/
def hashKey (key : String) : Nat := fnv32aWrite fnvOffset32 (keyBytes key) % numShards

/-- The index `hashKey(key)` as an index of the shard arrays. -/
def shardIndex (key : String) : Fin numShards :=
  ⟨hashKey key, Nat.mod_lt _ (by decide)⟩

/-- Source method `DB.getShard`. -/
def DB.getShard (db : DB) (key : String) : Shard := db.shards (shardIndex key)

/-- Source method `DB.getQueueShard`. -/
def DB.getQueueShard (db : DB) (key : String) : QueueShard := db.queueShards (shardIndex key)

/-- The write `shard.data[key] = entry` on the shard of `key`. -/
def DB.putEntry (db : DB) (key : String) (entry : Entry) : DB :=
  { db with shards := fun i =>
      if i = shardIndex key then ⟨(db.shards i).data.set key entry⟩ else db.shards i }

/-- The state of the queue object registered for `key` becomes `queue`. -/
def DB.putQueue (db : DB) (key : String) (queue : QueueWithBlocking) : DB :=
  { db with queueShards := fun i =>
      if i = shardIndex key then ⟨(db.queueShards i).queues.set key queue⟩
      else db.queueShards i }

/-! ## Key-value operations -/

/-- Source method `DB.Set`, with `now` the reading of `time.Now()`.  The result is the new
database and the returned error, `none` for `nil`. -/
def DB.Set (db : DB) (key : String) (value : Payload) (expiration : Int) (nx xx : Bool)
    (now : Time) : DB × Option Err :=
  let shard := db.getShard key
  let found := shard.data.get key
  let entry := found.getD default
  let «exists» := found.isSome
  if nx && «exists» then (db, some .keyAlreadyExists)
  else if xx && !«exists» then (db, some .keyDoesNotExist)
  else if !xx && «exists» then (db, some .keyAlreadyExists)
  else
    let expiry0 := Time.Add now (100 * 365 * 24 * Hour)
    -- line 187 to 189: `if xx { if expiration != -1 { expiry = ... }`
    let expiry1 :=
      if xx then
        if expiration ≠ -1 then Time.Add now (wrapInt64 (wrapInt64 expiration * Second))
        else expiry0
      else expiry0
    -- line 190, still inside `if xx`: `expiry = entry.ExpiresAt`
    let expiry := if xx then entry.ExpiresAt else expiry1
    (db.putEntry key { Value := value, ExpiresAt := expiry }, none)

/-- Source method `DB.Get`, with `now` the reading of `time.Now()`.  The result is the
database after the call and the pair `(value, found)` as an option. -/
def DB.Get (db : DB) (key : String) (now : Time) : DB × Option Payload :=
  let shard := db.getShard key
  match shard.data.get key with
  | none => (db, none)
  | some entry => if Time.After now entry.ExpiresAt then (db, none) else (db, some entry.Value)

/-! ## Queue operations -/

/-- Source method `DB.Push`, run without interruption.  `none` when the loop of the stack
push uses up `fuel`. -/
def DB.Push (db : DB) (key : String) (value : Payload) (index : Fin numEliminationSlots)
    (fuel : Nat) : Option DB :=
  let shard := db.getQueueShard key
  -- line 215 to 219: look the queue up, register a new one when there is none
  let queueRef := (shard.queues.get key).getD NewQueueWithBlocking
  match queueRef.stack.Push value index fuel with
  | none => none
  | some stack =>
    let queueRef := { queueRef with stack := stack }
    -- line 226 to 231: signal a waiting client
    let queueRef := if queueRef.isBlocked = 1 then queueRef.trySend else queueRef
    some (db.putQueue key queueRef)

/-- Source method `DB.Pop`, run without interruption.  `none` when the loop of the stack
pop uses up `fuel`. -/
def DB.Pop (db : DB) (key : String) (index : Fin numEliminationSlots) (fuel : Nat) :
    Option (DB × Result) :=
  let shard := db.getQueueShard key
  match shard.queues.get key with
  | none => some (db, .error .queueDoesNotExist)
  | some queue =>
    if queue.isBlocked = 1 then some (db, .error .ErrBlocked)
    else
      match queue.stack.Pop index fuel with
      | none => none
      | some (stack, r) => some (db.putQueue key { queue with stack := stack }, r)

/-- Which case of the `select` of `DB.BQPOP` fires. -/
inductive Wake where
  /-- The case `<-time.After(timeoutDuration)`. -/
  | timeout
  /-- The case `<-queue.signal`. -/
  | signal
deriving DecidableEq, Repr

/-- Source method `DB.BQPOP` called by `caller` and run without interruption.  `timeout` is
the `float64` argument as a rational; `index` and `index2` are the slots drawn by the first
and the second stack pop; `wake` is the case of the `select` that fires, the signal case
being possible only when a signal is buffered.  The deferred calls run before each return
that follows their `defer` statement, last deferred first. -/
def DB.BQPOP (db : DB) (key : String) (timeout : ℚ) (caller : Nat)
    (index index2 : Fin numEliminationSlots) (wake : Wake) (fuel : Nat) :
    Option (DB × Result) :=
  let shard := db.getQueueShard key
  -- line 257 to 263: look the queue up, register a new one when there is none
  let (queue, db) :=
    match shard.queues.get key with
    | some queue => (queue, db)
    | none => (NewQueueWithBlocking, db.putQueue key NewQueueWithBlocking)
  let (locked, readLock) := queue.readLock.TryLock caller
  if !locked then some (db, .error .ErrBlocked)
  else
    let queue := { queue with readLock := readLock }
    match queue.stack.Pop index fuel with
    | none => none
    | some (stack, .ok value) =>
      let queue := { queue with stack := stack }
      some (db.putQueue key { queue with readLock := queue.readLock.Unlock }, .ok value)
    | some (stack, .error _) =>
      let queue := { queue with stack := stack }
      if timeout ≤ 0 then
        some (db.putQueue key { queue with readLock := queue.readLock.Unlock }, .error .ErrEmpty)
      else
        let queue := { queue with isBlocked := 1 }
        if wake = .signal ∧ 0 < queue.signal then
          let queue := { queue with signal := queue.signal - 1 }
          match queue.stack.Pop index2 fuel with
          | none => none
          | some (stack, r) =>
            let queue := { queue with stack := stack }
            let queue := { queue with isBlocked := 0 }
            some (db.putQueue key { queue with readLock := queue.readLock.Unlock }, r)
        else
          let queue := { queue with isBlocked := 0 }
          some (db.putQueue key { queue with readLock := queue.readLock.Unlock },
            .error .ErrEmpty)

/-! ## Interleaved execution of the stack operations

Concurrent calls of `TreiberStack.Push` and `TreiberStack.Pop` are modelled by their
program points between two accesses to shared memory.  One step of a call performs the
access it is waiting on. -/

/-- Program points of a call of `TreiberStack.Push` or `TreiberStack.Pop`; each one names
the source line of the access the call performs next. -/
inductive PC where
  /-- Push, line 67: allocate the node for `value`; `index` is the slot drawn on line 45. -/
  | pushNew (value : Payload) (index : Fin numEliminationSlots)
  /-- Push in `exchange`, line 48: swap the node into the slot. -/
  | pushSwap (newNode : Nat) (index : Fin numEliminationSlots)
  /-- Push in `exchange`, line 50: the swap returned a node, store `nil` into the slot. -/
  | pushStore (index : Fin numEliminationSlots)
  /-- Push in `exchange`, line 55: after the sleep, compare-and-swap the slot to `nil`. -/
  | pushCAS (newNode : Nat) (index : Fin numEliminationSlots)
  /-- Push, line 72: load `top`. -/
  | pushLoad (newNode : Nat)
  /-- Push, line 73: `newNode.Next = oldTop`. -/
  | pushLink (newNode : Nat) (oldTop : Ptr)
  /-- Push, line 74: compare-and-swap `top` from `oldTop` to the node. -/
  | pushCASTop (newNode : Nat) (oldTop : Ptr)
  /-- Push has returned. -/
  | pushDone
  /-- Pop in `exchange`, line 48: swap `nil` into the slot `index` drawn on line 45. -/
  | popSwap (index : Fin numEliminationSlots)
  /-- Pop in `exchange`, line 50: the swap returned `previous`, store `nil` into the slot. -/
  | popStore (index : Fin numEliminationSlots) (previous : Nat)
  /-- Pop in `exchange`, line 55: after the sleep, compare-and-swap the slot. -/
  | popCAS (index : Fin numEliminationSlots)
  /-- Pop, line 87: load `top`. -/
  | popLoad
  /-- Pop, line 91: read `oldTop.Next`. -/
  | popNext (oldTop : Nat)
  /-- Pop, line 92: compare-and-swap `top` from `oldTop` to `newTop`. -/
  | popCASTop (oldTop : Nat) (newTop : Ptr)
  /-- Pop has returned `result`. -/
  | popDone (result : Result)
deriving DecidableEq, Repr

/-- One step of a call at program point `pc` on the stack `s`. -/
def PC.step (s : TreiberStack) : PC → TreiberStack × PC
  | .pushNew value index =>
    let (newNode, s) := s.newNode value
    (s, .pushSwap newNode index)
  | .pushSwap newNode index =>
    let (previous, e) := s.elimination.SwapPointer index (some newNode)
    ({ s with elimination := e },
      if previous ≠ none then .pushStore index else .pushCAS newNode index)
  | .pushStore index =>
    -- `exchange` returns `previous`, which is not nil: Push returns without pushing
    ({ s with elimination := s.elimination.StorePointer index none }, .pushDone)
  | .pushCAS newNode index =>
    let (_, e) := s.elimination.CompareAndSwapPointer index (some newNode) none
    ({ s with elimination := e }, .pushLoad newNode)
  | .pushLoad newNode => (s, .pushLink newNode s.top)
  | .pushLink newNode oldTop => (s.setNext newNode oldTop, .pushCASTop newNode oldTop)
  | .pushCASTop newNode oldTop =>
    let (swapped, s) := s.CompareAndSwapTop oldTop (some newNode)
    (s, if swapped then .pushDone else .pushLoad newNode)
  | .pushDone => (s, .pushDone)
  | .popSwap index =>
    let (previous, e) := s.elimination.SwapPointer index none
    ({ s with elimination := e },
      match previous with
      | some a => .popStore index a
      | none => .popCAS index)
  | .popStore index previous =>
    ({ s with elimination := s.elimination.StorePointer index none },
      .popDone (.ok (s.node previous).Value))
  | .popCAS index =>
    let (_, e) := s.elimination.CompareAndSwapPointer index none none
    ({ s with elimination := e }, .popLoad)
  | .popLoad =>
    match s.top with
    | none => (s, .popDone (.error .ErrEmpty))
    | some oldTop => (s, .popNext oldTop)
  | .popNext oldTop => (s, .popCASTop oldTop (s.node oldTop).Next)
  | .popCASTop oldTop newTop =>
    let (swapped, s) := s.CompareAndSwapTop (some oldTop) newTop
    (s, if swapped then .popDone (.ok (s.node oldTop).Value) else .popLoad)
  | .popDone result => (s, .popDone result)

/-- A call at `pc` takes `n` steps in a row, no other call stepping in between. -/
def PC.runAlone : Nat → TreiberStack → PC → TreiberStack × PC
  | 0, s, pc => (s, pc)
  | n + 1, s, pc => PC.runAlone n (pc.step s).1 (pc.step s).2

/-- A call has returned. -/
def PC.returned : PC → Bool
  | .pushDone => true
  | .popDone _ => true
  | _ => false

/-- The value a call of Push was given, if the call is at its first program point. -/
def PC.pushedValue : PC → Option Payload
  | .pushNew value _ => some value
  | _ => none

/-- The value a call of Pop has returned, if it has returned one. -/
def PC.poppedValue : PC → Option Payload
  | .popDone (.ok value) => some value
  | _ => none

/-- One stack shared by concurrent calls, each at its program point. -/
structure System where
  /-- The shared stack. -/
  stack : TreiberStack
  /-- The program point of every call. -/
  calls : List PC

/-- The call number `t` performs its next step. -/
def System.step (σ : System) (t : Nat) : System :=
  match σ.calls[t]? with
  | none => σ
  | some pc =>
    let (s, pc) := pc.step σ.stack
    { stack := s, calls := σ.calls.set t pc }

/-- The calls step in the order `schedule` lists them. -/
def System.run (σ : System) (schedule : List Nat) : System :=
  schedule.foldl System.step σ

/-- The values of the nodes linked from `p`, following at most `fuel` links. -/
def TreiberStack.valuesFrom (s : TreiberStack) : Nat → Ptr → List Payload
  | 0, _ => []
  | _, none => []
  | fuel + 1, some a => (s.node a).Value :: TreiberStack.valuesFrom s fuel (s.node a).Next

/-- The values reachable from the top of the stack, top first. -/
def TreiberStack.values (s : TreiberStack) : List Payload :=
  s.valuesFrom s.nodes.length s.top

/-- The stack of `NewQueueWithBlocking`: no node, empty slots. -/
def TreiberStack.new : TreiberStack := NewQueueWithBlocking.stack

/-! ## Observations used in the statements -/

/-- The entry bound to `key` in its shard, if any. -/
def DB.entry (db : DB) (key : String) : Option Entry := (db.getShard key).data.get key

/-- The queue registered for `key` in its shard, if any. -/
def DB.queue (db : DB) (key : String) : Option QueueWithBlocking :=
  (db.getQueueShard key).queues.get key

/-- The lifetime `100 * 365 * 24 * time.Hour` that `DB.Set` gives an entry. -/
def hundredYears : Duration := 100 * 365 * 24 * Hour

/-- A database in which `"foo"` is bound to `"old"`. -/
def dbFoo : DB := (NewDB.Set "foo" "old" (-1) false false 0).1

/-! ## Serial execution of queue operations and the reference stack -/

/-- An operation on one queue key, with the elimination slot its call draws. -/
inductive Op where
  /-- The call `db.Push(key, value)`. -/
  | push (value : Payload) (index : Fin numEliminationSlots)
  /-- The call `db.Pop(key)`. -/
  | pop (index : Fin numEliminationSlots)
deriving DecidableEq, Repr

/-- The operations run one after the other on the key, each to completion; the result is the
final database and the results of the pops, in order. -/
def DB.runOps (db : DB) (key : String) (fuel : Nat) : List Op → Option (DB × List Result)
  | [] => some (db, [])
  | .push value index :: ops =>
    match db.Push key value index fuel with
    | none => none
    | some db1 => DB.runOps db1 key fuel ops
  | .pop index :: ops =>
    match db.Pop key index fuel with
    | none => none
    | some (db1, r) =>
      match DB.runOps db1 key fuel ops with
      | none => none
      | some (db2, rs) => some (db2, r :: rs)

/-- What a pop returns on a list-based stack holding `l`, top first: the top value, or
Empty when the list is empty. -/
def topResult : List Payload → Result
  | [] => .error .ErrEmpty
  | value :: _ => .ok value

/-- The reference stack of the specification, a list with its top first: a push puts the
value on top, a pop returns and removes the most recently pushed value not yet popped and
returns Empty when there is none.  The result is the final list and the results of the pops,
in order. -/
def refStackRun : List Payload → List Op → List Payload × List Result
  | l, [] => (l, [])
  | l, .push value _ :: ops => refStackRun (value :: l) ops
  | l, .pop _ :: ops => ((refStackRun l.tail ops).1, topResult l :: (refStackRun l.tail ops).2)

/-- The nodes linked from `p` hold exactly the values of the list, in order, and the last
one has no successor. -/
def Chain (nodes : List StackNode) : List Payload → Ptr → Prop
  | [], p => p = none
  | value :: l, p => ∃ a next, p = some a ∧ nodes[a]? = some ⟨value, next⟩ ∧ Chain nodes l next

/-- The queue is at rest with the values `l` on its stack, top first: no blocking consumer
is active, the elimination slots are empty and the nodes linked from `top` hold `l`. -/
def QueueWithBlocking.Holds (q : QueueWithBlocking) (l : List Payload) : Prop :=
  q.isBlocked = 0 ∧ (∀ i, q.stack.elimination.slots i = none) ∧
    Chain q.stack.nodes l q.stack.top

/-- The queue registered for `key` is at rest with the values `l` on its stack. -/
def DB.QueueHolds (db : DB) (key : String) (l : List Payload) : Prop :=
  ∃ q, db.queue key = some q ∧ q.Holds l

/-- The operations that push the given values, each with its slot, in order. -/
def pushAll (xs : List (Payload × Fin numEliminationSlots)) : List Op :=
  xs.map (fun x => Op.push x.1 x.2)

/-- The operations that pop once for every slot given. -/
def popAll (slots : List (Fin numEliminationSlots)) : List Op := slots.map Op.pop

/-- The slot number zero. -/
def slot0 : Fin numEliminationSlots := ⟨0, by decide⟩

/-! ## Observations on interleaved executions -/

/-- The values given to the calls of Push, in the order of the calls. -/
def System.pushed (σ : System) : List Payload := σ.calls.filterMap PC.pushedValue

/-- The values returned so far by the calls of Pop, in the order of the calls. -/
def System.popped (σ : System) : List Payload := σ.calls.filterMap PC.poppedValue

/-- Every call has returned. -/
def System.quiescent (σ : System) : Bool := σ.calls.all PC.returned

/-- One Push of `"a"` and two Pops on a new stack, all drawing slot zero. -/
def pushPopPop : System :=
  { stack := TreiberStack.new, calls := [.pushNew "a" slot0, .popSwap slot0, .popSwap slot0] }

/-- Two Pushes, of `"a"` and of `"b"`, on a new stack, both drawing slot zero. -/
def pushPush : System :=
  { stack := TreiberStack.new, calls := [.pushNew "a" slot0, .pushNew "b" slot0] }

/-- A database in which caller `1` waits inside `BQPOP("q", ...)` on an empty queue: it holds
`readLock` and has set `isBlocked`. -/
def dbWaiting : DB :=
  NewDB.putQueue "q" { NewQueueWithBlocking with readLock := ⟨some 1⟩, isBlocked := 1 }

/-! ## Validation of the command line (`Models/Models.go`)

The validators return a Go `error`: `none` is `nil`, `some msg` an error with the text `msg`.
`strings.ToUpper` is an argument `ToUpper` of the validators, so that nothing is assumed about
it; `asciiUpper` is its value on ASCII strings. -/

/-- The errors of Go `strconv`. -/
inductive NumError where
  /-- Go `strconv.ErrSyntax`. -/
  | ErrSyntax
  /-- Go `strconv.ErrRange`. -/
  | ErrRange
deriving DecidableEq, Repr

/-- The value of a sequence of decimal digits. -/
def digitsValue (digits : List Char) : Nat :=
  digits.foldl (fun n ch => n * 10 + (ch.toNat - '0'.toNat)) 0

/-- Go `strconv.Atoi` on a 64-bit platform, after the Go standard library: an optional sign
followed by one or more decimal digits, anything else being a syntax error with value `0`; a
value outside `int64` is a range error with the nearest `int64` as value. -/
def Atoi (s : String) : Int × Option NumError :=
  let neg := s.data.head? = some '-'
  let digits :=
    match s.data with
    | '-' :: rest => rest
    | '+' :: rest => rest
    | all => all
  if digits.isEmpty || !digits.all Char.isDigit then (0, some .ErrSyntax)
  else
    let un := digitsValue digits
    if neg then
      if un > 2 ^ 63 then (-(2 ^ 63), some .ErrRange) else (-(un : Int), none)
    else
      if un ≥ 2 ^ 63 then (2 ^ 63 - 1, some .ErrRange) else ((un : Int), none)

/-- Go `strings.ToUpper` on a string of ASCII characters. -/
def asciiUpper (s : String) : String := ⟨s.data.map Char.toUpper⟩

/-- The loop of `validateSET`, lines 71 to 95, on the arguments from index `i` on;
`condition` is the local variable of that name. -/
def validateSETOptions (ToUpper : String → String) : List String → String → Option String
  | [], _ => none
  | a :: rest, condition =>
    let arg := ToUpper a
    if arg = "EX" then
      match rest with
      | [] => some "missing expiry time after EX"
      | num :: rest2 =>
        if (Atoi num).1 < 0 then some "expiry time must be positive integer"
        else if (Atoi num).2 ≠ none then some "expiry time must be an integer"
        else validateSETOptions ToUpper rest2 condition
    else if arg = "NX" ∨ arg = "XX" then
      if condition ≠ "" then some "either xx or nx can be used at a time."
      else validateSETOptions ToUpper rest arg
    else some ("invalid argument: " ++ arg)

/-- The usage text of the errors of `validateSET`. -/
def usageSET : String :=
  "invalid SET command format. Usage: SET <key> <value> [EX <expiry>] [NX|XX]"

/-- Source function `validateSET`. -/
def validateSET (ToUpper : String → String) (args : List String) : Option String :=
  if args.length < 3 ∨ args.length > 6 then some usageSET
  else
    let arg0 := ToUpper (args.getD 0 "")
    if arg0 ≠ "SET" then some usageSET
    else validateSETOptions ToUpper (args.drop 3) ""

/-- Source function `validateGET`. -/
def validateGET (ToUpper : String → String) (args : List String) : Option String :=
  if args.length ≠ 2 then some "invalid GET command format. Usage: GET <key>"
  else
    let arg0 := ToUpper (args.getD 0 "")
    if arg0 ≠ "GET" then some "invalid GET command format. Usage: GET <key>"
    else none

/-- Source function `validateQueuePush`. -/
def validateQueuePush (args : List String) : Option String :=
  if args.length < 3 then some "invalid QPUSH command format. Usage: QPUSH <key> ...value"
  else none

/-- Source function `validateQueuePop`. -/
def validateQueuePop (args : List String) : Option String :=
  if args.length ≠ 2 then some "invalid QPOP command format. Usage: QPOP <key>"
  else none

/-- Source function `validateBQPop`. -/
def validateBQPop (args : List String) : Option String :=
  if args.length ≠ 3 then some "invalid BQPOP command format. BQPOP <key> <timeout>"
  else
    if (Atoi (args.getD 2 "")).2 ≠ none then some "expiry time must be an integer"
    else if (Atoi (args.getD 2 "")).1 < 0 then some "expiry time must be a positive integer"
    else none

/-- Source function `ValidateInput`. -/
def ValidateInput (ToUpper : String → String) (args : List String) : Option String :=
  if args.length = 0 then some "invalid command"
  else
    let cmdType := ToUpper (args.getD 0 "")
    if cmdType = "SET" then validateSET ToUpper args
    else if cmdType = "GET" then validateGET ToUpper args
    else if cmdType = "QPUSH" then validateQueuePush args
    else if cmdType = "QPOP" then validateQueuePop args
    else if cmdType = "BQPOP" then validateBQPop args
    else some "invalid command"

/-- The options of a `SET` command as the specification describes them: any sequence of
condition tokens (`NX` or `XX`, in any case) and of groups made of `EX` (in any case) followed
by a token that parses as an integer that is not negative; the number counts the condition
tokens. -/
inductive SetOptions (ToUpper : String → String) : List String → Nat → Prop where
  /-- No option. -/
  | nil : SetOptions ToUpper [] 0
  /-- An `EX` group followed by options. -/
  | ex (t num : String) (rest : List String) (c : Nat) :
      ToUpper t = "EX" → (Atoi num).2 = none → 0 ≤ (Atoi num).1 →
      SetOptions ToUpper rest c → SetOptions ToUpper (t :: num :: rest) c
  /-- A condition token followed by options. -/
  | cond (t : String) (rest : List String) (c : Nat) :
      (ToUpper t = "NX" ∨ ToUpper t = "XX") →
      SetOptions ToUpper rest c → SetOptions ToUpper (t :: rest) (c + 1)

/-! ## The FNV-1a hash as the specification describes it -/

/-- The 32-bit FNV-1a hash of a byte sequence given last byte first: the hash of the empty
sequence is the offset basis; the hash of a sequence extended by a byte is the hash of the
sequence, xor the byte, times the prime, modulo `2 ^ 32`. -/
def fnv1a32Rev : List Nat → Nat
  | [] => fnvOffset32
  | b :: earlier => ((fnv1a32Rev earlier ^^^ b) * fnvPrime32) % 2 ^ 32

/-- The 32-bit FNV-1a hash of a byte sequence. -/
def fnv1a32 (bytes : List Nat) : Nat := fnv1a32Rev bytes.reverse

/-! ## Cleanup -/

/-- The keys a `range` over the map visits. -/
def GoMap.keys {β : Type} (m : GoMap β) : List String := m.entries.map Prod.fst

/-- One round of the loop of lines 301 to 305, for a key that `range` visits: the key is
bound to its entry in the map as it is now; the entry is deleted when `now` is after its
`ExpiresAt`.  A key deleted meanwhile is not visited. -/
def Shard.sweepKey (now : Time) (data : GoMap Entry) (key : String) : GoMap Entry :=
  match data.get key with
  | some entry => if Time.After now entry.ExpiresAt then data.delete key else data
  | none => data

/-- The loop `for key, entry := range shard.data { ... }` of lines 301 to 305 on the map of
one shard. -/
def Shard.sweep (now : Time) (data : GoMap Entry) : GoMap Entry :=
  data.keys.foldl (Shard.sweepKey now) data

/-- One sweep of the reaper: the body of `case <-db.ttl.C` in the source method `DB.cleanup`,
lines 298 to 307, with `now` the reading of `time.Now()` on line 298. -/
def DB.cleanupTick (db : DB) (now : Time) : DB :=
  { db with shards := fun i => ⟨Shard.sweep now (db.shards i).data⟩ }

/-- The entry survives a sweep at `now`: `now` is not after its `ExpiresAt`. -/
def Entry.freshAt (now : Time) (entry : Entry) : Bool := !Time.After now entry.ExpiresAt

/-! ## Interleaved execution of the queue operations

Concurrent calls of `DB.Push`, `DB.Pop` and `DB.BQPOP` on one registered queue, modelled by
their program points between two accesses to the queue.  The lookup of the queue under the
shard lock is not a step: the queue exists and is never replaced.  The calls inside
`stack.Push` and `stack.Pop` take the steps of `PC.step`. -/

/-- Program points of a call of `DB.Push`, `DB.Pop` or `DB.BQPOP` on the queue; each one names
the source line of the access the call performs next. -/
inductive QPC where
  /-- Push, line 223: inside `queueRef.stack.Push(value)`, at the program point `pc`. -/
  | pushStack (pc : PC)
  /-- Push, line 226: load `isBlocked`. -/
  | pushLoad
  /-- Push, line 228: the flag was `1`, send on `signal` without blocking. -/
  | pushSend
  /-- Push has returned. -/
  | pushDone
  /-- Pop, line 246: load `isBlocked`; `index` is the slot the stack pop will draw. -/
  | popLoad (index : Fin numEliminationSlots)
  /-- Pop, line 251: inside `queue.stack.Pop()`, at the program point `pc`. -/
  | popStack (pc : PC)
  /-- Pop has returned `r`. -/
  | popDone (r : Result)
  /-- BQPOP, line 265: `queue.readLock.TryLock()`; `index` and `index2` are the slots the
  first and the second stack pop will draw. -/
  | bqTryLock (timeout : ℚ) (index index2 : Fin numEliminationSlots)
  /-- BQPOP, line 271: inside the immediate `queue.stack.Pop()`, at the program point `pc`. -/
  | bqPop (timeout : ℚ) (index2 : Fin numEliminationSlots) (pc : PC)
  /-- BQPOP, line 279: store `1` into `isBlocked`. -/
  | bqStore (index2 : Fin numEliminationSlots)
  /-- BQPOP, line 284: waiting in the `select`. -/
  | bqSelect (index2 : Fin numEliminationSlots)
  /-- BQPOP, line 288: inside the `queue.stack.Pop()` after the signal, at `pc`. -/
  | bqPop2 (pc : PC)
  /-- BQPOP returning `r`, deferred call of line 280: store `0` into `isBlocked`. -/
  | bqClear (r : Result)
  /-- BQPOP returning `r`, deferred call of line 268: `queue.readLock.Unlock()`. -/
  | bqUnlock (r : Result)
  /-- BQPOP has returned `r`. -/
  | bqDone (r : Result)
deriving DecidableEq

/-- One step of the call `caller` at a program point, on the queue `q`.  `wake` says which
case of the `select` fires if the call is waiting there: the timeout may fire at any time,
the signal case needs a buffered signal. -/
def QPC.step (q : QueueWithBlocking) (caller : Nat) (wake : Wake) :
    QPC → QueueWithBlocking × QPC
  | .pushStack pc =>
    ({ q with stack := (pc.step q.stack).1 },
      match (pc.step q.stack).2 with
      | .pushDone => .pushLoad
      | pc2 => .pushStack pc2)
  | .pushLoad => (q, if q.isBlocked = 1 then .pushSend else .pushDone)
  | .pushSend => (q.trySend, .pushDone)
  | .pushDone => (q, .pushDone)
  | .popLoad index =>
    (q, if q.isBlocked = 1 then .popDone (.error .ErrBlocked) else .popStack (.popSwap index))
  | .popStack pc =>
    ({ q with stack := (pc.step q.stack).1 },
      match (pc.step q.stack).2 with
      | .popDone r => .popDone r
      | pc2 => .popStack pc2)
  | .popDone r => (q, .popDone r)
  | .bqTryLock timeout index index2 =>
    if (q.readLock.TryLock caller).1 then
      ({ q with readLock := (q.readLock.TryLock caller).2 },
        .bqPop timeout index2 (.popSwap index))
    else (q, .bqDone (.error .ErrBlocked))
  | .bqPop timeout index2 pc =>
    ({ q with stack := (pc.step q.stack).1 },
      match (pc.step q.stack).2 with
      | .popDone (.ok value) => .bqUnlock (.ok value)
      | .popDone (.error _) =>
        if timeout ≤ 0 then .bqUnlock (.error .ErrEmpty) else .bqStore index2
      | pc2 => .bqPop timeout index2 pc2)
  | .bqStore index2 => ({ q with isBlocked := 1 }, .bqSelect index2)
  | .bqSelect index2 =>
    match wake with
    | .timeout => (q, .bqClear (.error .ErrEmpty))
    | .signal =>
      if 0 < q.signal then ({ q with signal := q.signal - 1 }, .bqPop2 (.popSwap index2))
      else (q, .bqSelect index2)
  | .bqPop2 pc =>
    ({ q with stack := (pc.step q.stack).1 },
      match (pc.step q.stack).2 with
      | .popDone r => .bqClear r
      | pc2 => .bqPop2 pc2)
  | .bqClear r => ({ q with isBlocked := 0 }, .bqUnlock r)
  | .bqUnlock r => ({ q with readLock := q.readLock.Unlock }, .bqDone r)
  | .bqDone r => (q, .bqDone r)

/-- The call is a `BQPOP` between its successful `TryLock` and its `Unlock`. -/
def QPC.holdsLock : QPC → Bool
  | .bqPop _ _ _ => true
  | .bqStore _ => true
  | .bqSelect _ => true
  | .bqPop2 _ => true
  | .bqClear _ => true
  | .bqUnlock _ => true
  | _ => false

/-- The call is a `BQPOP` that has stored `1` into `isBlocked` and not yet cleared it. -/
def QPC.flagSet : QPC → Bool
  | .bqSelect _ => true
  | .bqPop2 _ => true
  | .bqClear _ => true
  | _ => false

/-- The call is a `BQPOP` that will return without waiting in the `select`: its timeout is
not positive and it is before the timeout test, or it is past its last `return`. -/
def QPC.neverWaits : QPC → Bool
  | .bqTryLock timeout _ _ => decide (timeout ≤ 0)
  | .bqPop timeout _ _ => decide (timeout ≤ 0)
  | .bqUnlock _ => true
  | .bqDone _ => true
  | _ => false

/-- The call is a `BQPOP` in progress: entered and not yet returned. -/
def QPC.inBQPOP : QPC → Bool
  | .bqTryLock _ _ _ => true
  | .bqPop _ _ _ => true
  | .bqStore _ => true
  | .bqSelect _ => true
  | .bqPop2 _ => true
  | .bqClear _ => true
  | .bqUnlock _ => true
  | _ => false

/-- One queue shared by concurrent calls, each at its program point. -/
structure QSystem where
  /-- The shared queue. -/
  queue : QueueWithBlocking
  /-- The program point of every call; the position in the list identifies the call. -/
  calls : List QPC

/-- The call number `t` performs its next step, `wake` deciding its `select`. -/
def QSystem.step (σ : QSystem) (move : Nat × Wake) : QSystem :=
  match σ.calls[move.1]? with
  | none => σ
  | some pc =>
    { queue := (pc.step σ.queue move.1 move.2).1,
      calls := σ.calls.set move.1 (pc.step σ.queue move.1 move.2).2 }

/-- The calls step in the order `schedule` lists them. -/
def QSystem.run (σ : QSystem) (schedule : List (Nat × Wake)) : QSystem :=
  schedule.foldl QSystem.step σ

/-- A call takes `n` steps in a row, no other call stepping in between. -/
def QPC.runAlone (caller : Nat) (wake : Wake) :
    Nat → QueueWithBlocking → QPC → QueueWithBlocking × QPC
  | 0, q, pc => (q, pc)
  | n + 1, q, pc =>
    QPC.runAlone caller wake n (pc.step q caller wake).1 (pc.step q caller wake).2

/-- The mutex and the flag agree with the program points of the calls: `isBlocked` is `0` or
`1`; a call between `TryLock` and `Unlock` is the holder of `readLock`; the holder of
`readLock` is such a call; and `isBlocked` is `1` exactly when some call has set the flag and
not yet cleared it. -/
def QSystem.Inv (σ : QSystem) : Prop :=
  (σ.queue.isBlocked = 0 ∨ σ.queue.isBlocked = 1) ∧
  (∀ (t : Nat) (pc : QPC), σ.calls[t]? = some pc → pc.holdsLock = true →
    σ.queue.readLock.holder = some t) ∧
  (∀ t : Nat, σ.queue.readLock.holder = some t →
    ∃ pc : QPC, σ.calls[t]? = some pc ∧ pc.holdsLock = true) ∧
  (σ.queue.isBlocked = 1 ↔
    ∃ (t : Nat) (pc : QPC), σ.calls[t]? = some pc ∧ pc.flagSet = true)

/-- Two blocking pops with a timeout of five seconds and one push on a new queue. -/
def twoWaitersOnePush : QSystem :=
  { queue := NewQueueWithBlocking,
    calls := [.bqTryLock 5 slot0 slot0, .bqTryLock 5 slot0 slot0,
              .pushStack (.pushNew "hello" slot0)] }

/-- A queue at rest whose stack holds the one value `"a"`. -/
def queueOneValue : QueueWithBlocking :=
  { NewQueueWithBlocking with
    stack := { top := some 0, elimination := ⟨fun _ => none⟩, nodes := [⟨"a", none⟩] } }

/-- A database in which the queue `"q"` is at rest and holds the one value `"a"`. -/
def dbOneValue : DB := NewDB.putQueue "q" queueOneValue

/-- A database in which the key `"q"` has a new, empty queue. -/
def dbEmptyQueue : DB := NewDB.putQueue "q" NewQueueWithBlocking

/-- The stack of a new queue after a call `Push("x")` drawing slot zero has taken its first two
steps: the node of `"x"` is offered in slot zero, the call sleeps, `top` is still nil. -/
def stackWithOffer : TreiberStack := (PC.runAlone 2 TreiberStack.new (.pushNew "x" slot0)).1

/-- A database in which the queue `"q"` has no blocking consumer, an empty linked stack, and
the node of a sleeping pusher offered in slot zero. -/
def dbOffer : DB := NewDB.putQueue "q" { NewQueueWithBlocking with stack := stackWithOffer }

/-! ## Facts about Go maps and shards -/

theorem GoMap.get_set_self {β : Type} (m : GoMap β) (k : String) (v : β) :
    (m.set k v).get k = some v := by
  simp [GoMap.set, GoMap.get]

theorem GoMap.get_delete_other {β : Type} (m : GoMap β) (k k2 : String) (h : k2 ≠ k) :
    (m.delete k).get k2 = m.get k2 := by
  obtain ⟨l⟩ := m
  simp only [GoMap.delete, GoMap.get]
  congr 1
  induction l with
  | nil => rfl
  | cons p l ih =>
    obtain ⟨a, b⟩ := p
    by_cases hp : a = k
    · subst hp
      have h2 : ¬ a = k2 := fun h3 => h h3.symm
      simp [List.filter_cons, List.find?_cons, h2, ih]
    · by_cases h2 : a = k2
      · subst h2
        simp [List.filter_cons, List.find?_cons, hp]
      · simp [List.filter_cons, List.find?_cons, hp, h2, ih]

theorem GoMap.get_set_other {β : Type} (m : GoMap β) (k k2 : String) (v : β) (h : k2 ≠ k) :
    (m.set k v).get k2 = m.get k2 := by
  have h2 : ¬ k = k2 := fun h3 => h h3.symm
  have h3 := GoMap.get_delete_other m k k2 h
  simp only [GoMap.get] at h3
  simp [GoMap.set, GoMap.get, List.find?_cons, h2, h3]

theorem DB.entry_putEntry_self (db : DB) (k : String) (e : Entry) :
    (db.putEntry k e).entry k = some e := by
  simp [DB.entry, DB.putEntry, DB.getShard, GoMap.get_set_self]

theorem DB.entry_putEntry_other (db : DB) (k k2 : String) (e : Entry) (h : k2 ≠ k) :
    (db.putEntry k e).entry k2 = db.entry k2 := by
  simp only [DB.entry, DB.putEntry, DB.getShard]
  split
  · next h2 => rw [GoMap.get_set_other _ _ _ _ h, h2]
  · rfl

theorem DB.queue_putQueue_self (db : DB) (k : String) (q : QueueWithBlocking) :
    (db.putQueue k q).queue k = some q := by
  simp [DB.queue, DB.putQueue, DB.getQueueShard, GoMap.get_set_self]

theorem DB.queue_putQueue_other (db : DB) (k k2 : String) (q : QueueWithBlocking)
    (h : k2 ≠ k) : (db.putQueue k q).queue k2 = db.queue k2 := by
  simp only [DB.queue, DB.putQueue, DB.getQueueShard]
  split
  · next h2 => rw [GoMap.get_set_other _ _ _ _ h, h2]
  · rfl

/-- On a key without entry, `Set` without `xx` succeeds and binds the key to the value with
the expiry `now + hundredYears`, whatever `expiration` and `nx` are. -/
theorem DB.Set_absent (db : DB) (k : String) (v : Payload) (e : Int) (nx : Bool) (now : Time)
    (hk : db.entry k = none) :
    db.Set k v e nx false now
      = (db.putEntry k { Value := v, ExpiresAt := now + hundredYears }, none) := by
  unfold DB.entry at hk
  simp [DB.Set, hk, Time.Add, hundredYears]

/-- What `Get` returns, in terms of the entry of the key. -/
theorem DB.Get_eq (db : DB) (k : String) (now : Time) :
    db.Get k now
      = (db, match db.entry k with
             | none => none
             | some entry => if entry.ExpiresAt < now then none else some entry.Value) := by
  simp only [DB.Get, DB.entry]
  cases hf : (db.getShard k).data.get k with
  | none => rfl
  | some entry => by_cases h : entry.ExpiresAt < now <;> simp [Time.After, h]

/-! ## Key-value store: `Set` and `Get` -/

/-- C1 (as amended): on a key without entry, `Set(k, v, e, nx=false, xx=false)` at `now`
succeeds for every expiration argument `e`, and `Get(k)` at every instant `t` with
`now ≤ t < now + 100 years` returns `v` as found. -/
theorem C1_set_then_get_on_absent_key (db : DB) (k : String) (v : Payload) (e : Int)
    (now t : Time) (hk : db.entry k = none) (_h1 : now ≤ t) (h2 : t < now + hundredYears) :
    (db.Set k v e false false now).2 = none ∧
    ((db.Set k v e false false now).1.Get k t).2 = some v := by
  have h3 : ¬ (now + hundredYears < t) := not_lt.mpr h2.le
  rw [DB.Set_absent db k v e false now hk, DB.Get_eq, DB.entry_putEntry_self]
  simp [h3]

/-- C1, witness: the amended statement on the new database, key `"foo"`. -/
theorem C1_set_then_get_on_absent_key_witness :
    (NewDB.Set "foo" "bar" (-1) false false 5).2 = none ∧
    ((NewDB.Set "foo" "bar" (-1) false false 5).1.Get "foo" 9).2 = some "bar" :=
  C1_set_then_get_on_absent_key NewDB "foo" "bar" (-1) 5 9 (by decide) (by decide) (by decide)

/-- C1, counterexample: `"foo"` already holds `"old"`; `Set("foo", "new")` without TTL and
without condition fails with "key already exists", and `Get("foo")` at the same instant
returns `"old"`, not `"new"`. -/
theorem C1_set_then_get_on_existing_key :
    (dbFoo.Set "foo" "new" (-1) false false 0).2 = some Err.keyAlreadyExists ∧
    ((dbFoo.Set "foo" "new" (-1) false false 0).1.Get "foo" 0).2 = some "old" ∧
    ((dbFoo.Set "foo" "new" (-1) false false 0).1.Get "foo" 0).2 ≠ some "new" := by
  decide

/-- C2, the code at the failing input: after `Set("foo", "bar", 1, nx=false, xx=false)` at
instant `0` on the new database, `Get("foo")` two seconds later still returns `"bar"`,
where the claim requires not-found from one second on. -/
theorem C2_get_after_ttl_still_found :
    (NewDB.Set "foo" "bar" 1 false false 0).2 = none ∧
    ((NewDB.Set "foo" "bar" 1 false false 0).1.Get "foo" (2 * Second)).2 = some "bar" := by
  decide

/-- C3, the code at the failing input: `Set("foo", "bar", 1, nx=false, xx=false)` at instant
`0` on the new database stores the expiry `0 + 100 years`, not `0 + 1 second`. -/
theorem C3_set_stores_hundred_years :
    (NewDB.Set "foo" "bar" 1 false false 0).2 = none ∧
    (NewDB.Set "foo" "bar" 1 false false 0).1.entry "foo"
      = some { Value := "bar", ExpiresAt := 0 + hundredYears } ∧
    (NewDB.Set "foo" "bar" 1 false false 0).1.entry "foo"
      ≠ some { Value := "bar", ExpiresAt := 0 + 1 * Second } := by
  decide

/-- C4: `Get(k)` at `now` leaves the database unchanged; it returns not-found exactly when
`k` has no entry or `now` is strictly after the entry's `ExpiresAt`, and otherwise returns
the stored value; so every value it returns belongs to an entry whose `ExpiresAt` is not
strictly before `now`. -/
theorem C4_get_contract (db : DB) (k : String) (now : Time) :
    (db.Get k now).1 = db ∧
    ((db.Get k now).2 = none ↔
      (db.entry k = none ∨ ∃ entry, db.entry k = some entry ∧ entry.ExpiresAt < now)) ∧
    (∀ entry, db.entry k = some entry → ¬ entry.ExpiresAt < now →
      (db.Get k now).2 = some entry.Value) ∧
    (∀ v, (db.Get k now).2 = some v →
      ∃ entry, db.entry k = some entry ∧ entry.Value = v ∧ ¬ entry.ExpiresAt < now) := by
  rw [DB.Get_eq]
  cases hf : db.entry k with
  | none => simp
  | some entry => by_cases h : entry.ExpiresAt < now <;> simp [h, le_of_not_lt]

/-- C5: on a key without entry, `Set(k, v, nx=true, xx=false)` succeeds and stores `v`; a
following `Set(k, v2, nx=true, xx=false)` fails with "key already exists" and returns the
database unchanged, so that `Get(k)` still returns `v`. -/
theorem C5_set_nx_twice (db : DB) (k : String) (v v2 : Payload) (e e2 : Int)
    (now now2 t : Time) (hk : db.entry k = none) (ht : t ≤ now + hundredYears) :
    (db.Set k v e true false now).2 = none ∧
    ((db.Set k v e true false now).1.entry k).map Entry.Value = some v ∧
    (db.Set k v e true false now).1.Set k v2 e2 true false now2
      = ((db.Set k v e true false now).1, some Err.keyAlreadyExists) ∧
    (((db.Set k v e true false now).1.Set k v2 e2 true false now2).1.Get k t).2 = some v := by
  have h3 : ¬ (now + hundredYears < t) := not_lt.mpr ht
  rw [DB.Set_absent db k v e true now hk]
  have h4 := DB.entry_putEntry_self db k { Value := v, ExpiresAt := now + hundredYears }
  have h5 : (db.putEntry k { Value := v, ExpiresAt := now + hundredYears }).Set k v2 e2 true
      false now2
      = (db.putEntry k { Value := v, ExpiresAt := now + hundredYears },
          some Err.keyAlreadyExists) := by
    unfold DB.entry at h4
    simp [DB.Set, h4]
  rw [h5, DB.Get_eq, h4]
  simp [h3]

/-- C5, witness: the two conditional writes on the new database, key `"foo"`. -/
theorem C5_set_nx_twice_witness :
    (NewDB.Set "foo" "bar" 0 true false 0).2 = none ∧
    ((NewDB.Set "foo" "bar" 0 true false 0).1.entry "foo").map Entry.Value = some "bar" ∧
    (NewDB.Set "foo" "bar" 0 true false 0).1.Set "foo" "baz" 0 true false 1
      = ((NewDB.Set "foo" "bar" 0 true false 0).1, some Err.keyAlreadyExists) ∧
    (((NewDB.Set "foo" "bar" 0 true false 0).1.Set "foo" "baz" 0 true false 1).1.Get
      "foo" 2).2 = some "bar" :=
  C5_set_nx_twice NewDB "foo" "bar" "baz" 0 0 0 1 2 (by decide) (by decide)

/-- C6: `Set(k, v, e, nx=false, xx=true)` on a key without entry fails with "key does not
exist" and returns the database unchanged; on a key with an entry it succeeds and the entry
becomes `v` with the old `ExpiresAt`, whatever `e` is; the entries of the other keys and the
queues are unchanged. -/
theorem C6_set_xx (db : DB) (k : String) (v : Payload) (e : Int) (now : Time) :
    (db.entry k = none → db.Set k v e false true now = (db, some Err.keyDoesNotExist)) ∧
    (∀ old, db.entry k = some old →
      (db.Set k v e false true now).2 = none ∧
      (db.Set k v e false true now).1.entry k
        = some { Value := v, ExpiresAt := old.ExpiresAt }) ∧
    (∀ k2, k2 ≠ k → (db.Set k v e false true now).1.entry k2 = db.entry k2) ∧
    (db.Set k v e false true now).1.queueShards = db.queueShards := by
  cases hf : db.entry k with
  | none =>
    have h1 : db.Set k v e false true now = (db, some Err.keyDoesNotExist) := by
      unfold DB.entry at hf
      simp [DB.Set, hf]
    simp [h1]
  | some old =>
    have h1 : db.Set k v e false true now
        = (db.putEntry k { Value := v, ExpiresAt := old.ExpiresAt }, none) := by
      unfold DB.entry at hf
      simp [DB.Set, hf]
    rw [h1]
    refine ⟨by simp, ?_, ?_, rfl⟩
    · intro old2 h2
      cases h2
      exact ⟨rfl, DB.entry_putEntry_self _ _ _⟩
    · intro k2 h2
      exact DB.entry_putEntry_other _ _ _ _ h2

/-- C7: on a key with an entry, `Set(k, v, e, nx=false, xx=false)` returns the error "key
already exists" for every `v` and `e`, and returns the database unchanged. -/
theorem C7_set_rejects_existing_key (db : DB) (k : String) (v : Payload) (e : Int)
    (now : Time) (old : Entry) (hk : db.entry k = some old) :
    db.Set k v e false false now = (db, some Err.keyAlreadyExists) := by
  unfold DB.entry at hk
  simp [DB.Set, hk]

/-- C7, witness: `"foo"` holds `"old"` and an unconditional `Set` of `"new"` is rejected. -/
theorem C7_set_rejects_existing_key_witness :
    dbFoo.Set "foo" "new" 5 false false 7 = (dbFoo, some Err.keyAlreadyExists) :=
  C7_set_rejects_existing_key dbFoo "foo" "new" 5 7 { Value := "old", ExpiresAt := hundredYears }
    (by decide)

/-! ## Serial execution of the queue operations -/

theorem Chain.mono {nodes nodes2 : List StackNode}
    (h : ∀ (a : Nat) (n : StackNode), nodes[a]? = some n → nodes2[a]? = some n) :
    ∀ (l : List Payload) (p : Ptr), Chain nodes l p → Chain nodes2 l p
  | [], _, hc => hc
  | _ :: l, _, ⟨a, next, hp, hn, hc⟩ => ⟨a, next, hp, h a _ hn, Chain.mono h l next hc⟩

/-- Without interference `exchange` finds the slot empty, returns nil and leaves every slot
empty. -/
theorem EliminationArray.exchange_empty (e : EliminationArray)
    (index : Fin numEliminationSlots) (value : Ptr) (he : ∀ i, e.slots i = none) :
    (e.exchange index value).1 = none ∧ ∀ i, (e.exchange index value).2.slots i = none := by
  simp only [EliminationArray.exchange, EliminationArray.SwapPointer,
    EliminationArray.CompareAndSwapPointer, EliminationArray.StorePointer, he]
  simp only [ne_eq, not_true_eq_false, if_false, if_true]
  refine ⟨trivial, fun i => ?_⟩
  by_cases h : i = index <;> simp [h]

/-- Run alone on a stack at rest holding `l`, `Push` returns and leaves the stack at rest
holding `value :: l`. -/
theorem TreiberStack.Push_alone (s : TreiberStack) (value : Payload)
    (index : Fin numEliminationSlots) (fuel : Nat) (l : List Payload)
    (he : ∀ i, s.elimination.slots i = none) (hc : Chain s.nodes l s.top) :
    ∃ s2, s.Push value index (fuel + 1) = some s2 ∧
      (∀ i, s2.elimination.slots i = none) ∧ Chain s2.nodes (value :: l) s2.top := by
  obtain ⟨h1, h2⟩ := EliminationArray.exchange_empty s.elimination index (some s.nodes.length) he
  rcases hx : s.elimination.exchange index (some s.nodes.length) with ⟨ex, e⟩
  rw [hx] at h1 h2
  simp only at h1 h2
  subst h1
  refine ⟨{ top := some s.nodes.length, elimination := e,
            nodes := (s.nodes ++ [StackNode.mk value none]).set s.nodes.length
              (StackNode.mk value s.top) }, ?_, h2, ?_⟩
  · simp [TreiberStack.Push, TreiberStack.newNode, hx, TreiberStack.pushLoop,
      TreiberStack.setNext, TreiberStack.CompareAndSwapTop, TreiberStack.node]
  · refine ⟨s.nodes.length, s.top, rfl, by simp, Chain.mono ?_ l s.top hc⟩
    intro a n hn
    have hlt : a < s.nodes.length := by
      by_contra hge
      rw [List.getElem?_eq_none (Nat.le_of_not_lt hge)] at hn
      cases hn
    rw [List.getElem?_set_ne (Nat.ne_of_gt hlt), List.getElem?_append_left hlt]
    exact hn

/-- Run alone on a stack at rest holding `l`, `Pop` returns the first value of `l`, or
`ErrEmpty` when `l` is empty, and leaves the stack at rest holding the rest of `l`. -/
theorem TreiberStack.Pop_alone (s : TreiberStack) (index : Fin numEliminationSlots)
    (fuel : Nat) (l : List Payload)
    (he : ∀ i, s.elimination.slots i = none) (hc : Chain s.nodes l s.top) :
    ∃ s2, s.Pop index (fuel + 1) = some (s2, topResult l) ∧
      (∀ i, s2.elimination.slots i = none) ∧ Chain s2.nodes l.tail s2.top := by
  obtain ⟨h1, h2⟩ := EliminationArray.exchange_empty s.elimination index none he
  rcases hx : s.elimination.exchange index none with ⟨ex, e⟩
  rw [hx] at h1 h2
  simp only at h1 h2
  subst h1
  cases l with
  | nil =>
    have ht : s.top = none := hc
    refine ⟨{ s with elimination := e }, ?_, h2, ht⟩
    simp [TreiberStack.Pop, hx, TreiberStack.popLoop, ht, topResult]
  | cons value l =>
    obtain ⟨a, next, ht, hn, hc2⟩ := hc
    refine ⟨{ top := next, elimination := e, nodes := s.nodes }, ?_, h2, hc2⟩
    simp [TreiberStack.Pop, hx, TreiberStack.popLoop, ht, TreiberStack.CompareAndSwapTop,
      TreiberStack.node, List.getD_eq_getElem?_getD, hn, topResult]

/-- The uninterrupted `Push` is the call of the step model taking its steps alone: six steps
reach the return, with the same stack. -/
theorem TreiberStack.Push_eq_runAlone (s : TreiberStack) (value : Payload)
    (index : Fin numEliminationSlots) (fuel : Nat) :
    (PC.runAlone 6 s (.pushNew value index)).2 = .pushDone ∧
    s.Push value index (fuel + 1) = some (PC.runAlone 6 s (.pushNew value index)).1 := by
  cases hs : s.elimination.slots index <;>
    simp [PC.runAlone, PC.step, TreiberStack.Push, TreiberStack.newNode,
      EliminationArray.exchange, EliminationArray.SwapPointer,
      EliminationArray.CompareAndSwapPointer, EliminationArray.StorePointer,
      TreiberStack.pushLoop, TreiberStack.setNext, TreiberStack.CompareAndSwapTop, hs]

/-- The uninterrupted `Pop` is the call of the step model taking its steps alone: five steps
reach the return, with the same stack and the same result. -/
theorem TreiberStack.Pop_eq_runAlone (s : TreiberStack) (index : Fin numEliminationSlots)
    (fuel : Nat) :
    ∃ r, (PC.runAlone 5 s (.popSwap index)).2 = .popDone r ∧
      s.Pop index (fuel + 1) = some ((PC.runAlone 5 s (.popSwap index)).1, r) := by
  cases hs : s.elimination.slots index <;> cases ht : s.top <;>
    simp [PC.runAlone, PC.step, TreiberStack.Pop,
      EliminationArray.exchange, EliminationArray.SwapPointer,
      EliminationArray.CompareAndSwapPointer, EliminationArray.StorePointer,
      TreiberStack.popLoop, TreiberStack.CompareAndSwapTop, TreiberStack.node, hs, ht]

/-- The new queue is at rest and holds nothing. -/
theorem NewQueueWithBlocking_Holds : NewQueueWithBlocking.Holds [] :=
  ⟨rfl, fun _ => rfl, rfl⟩

/-- Run alone, `DB.Push` on a key whose queue is at rest holding `l`, or on a key without
queue (`l` empty), returns and leaves the queue of the key at rest holding `value :: l`. -/
theorem DB.Push_serial (db : DB) (key : String) (value : Payload)
    (index : Fin numEliminationSlots) (fuel : Nat) (l : List Payload)
    (h : db.QueueHolds key l ∨ (db.queue key = none ∧ l = [])) :
    ∃ db2, db.Push key value index (fuel + 1) = some db2 ∧ db2.QueueHolds key (value :: l) := by
  have hq : ∃ q, (db.queue key).getD NewQueueWithBlocking = q ∧ q.Holds l := by
    rcases h with ⟨q, hq, hh⟩ | ⟨hq, hl⟩
    · exact ⟨q, by simp [hq], hh⟩
    · exact ⟨NewQueueWithBlocking, by simp [hq], hl ▸ NewQueueWithBlocking_Holds⟩
  obtain ⟨q, hq, hb, he, hc⟩ := hq
  obtain ⟨s2, hp, he2, hc2⟩ := TreiberStack.Push_alone q.stack value index fuel l he hc
  unfold DB.queue at hq
  refine ⟨db.putQueue key { q with stack := s2 }, ?_, { q with stack := s2 },
    DB.queue_putQueue_self _ _ _, hb, he2, hc2⟩
  simp [DB.Push, hq, hp, hb]

/-- Run alone, `DB.Pop` on a key whose queue is at rest holding `l` returns the first value
of `l`, or `ErrEmpty` when `l` is empty, and leaves the queue at rest holding the rest. -/
theorem DB.Pop_serial (db : DB) (key : String) (index : Fin numEliminationSlots) (fuel : Nat)
    (l : List Payload) (h : db.QueueHolds key l) :
    ∃ db2, db.Pop key index (fuel + 1) = some (db2, topResult l) ∧
      db2.QueueHolds key l.tail := by
  obtain ⟨q, hq, hb, he, hc⟩ := h
  obtain ⟨s2, hp, he2, hc2⟩ := TreiberStack.Pop_alone q.stack index fuel l he hc
  unfold DB.queue at hq
  refine ⟨db.putQueue key { q with stack := s2 }, ?_, { q with stack := s2 },
    DB.queue_putQueue_self _ _ _, hb, he2, hc2⟩
  simp [DB.Pop, hq, hp, hb]

/-- Serial runs on a queue at rest agree with the reference stack. -/
theorem DB.runOps_serial (key : String) (fuel : Nat) :
    ∀ (ops : List Op) (db : DB) (l : List Payload), db.QueueHolds key l →
      ∃ db2, db.runOps key (fuel + 1) ops = some (db2, (refStackRun l ops).2) ∧
        db2.QueueHolds key (refStackRun l ops).1
  | [], db, l, h => ⟨db, by simp [DB.runOps, refStackRun], by simpa [refStackRun] using h⟩
  | .push value index :: ops, db, l, h => by
    obtain ⟨db1, h1, hh1⟩ := DB.Push_serial db key value index fuel l (Or.inl h)
    obtain ⟨db2, h2, hh2⟩ := DB.runOps_serial key fuel ops db1 (value :: l) hh1
    exact ⟨db2, by simp [DB.runOps, h1, h2, refStackRun], by simpa [refStackRun] using hh2⟩
  | .pop index :: ops, db, l, h => by
    obtain ⟨db1, h1, hh1⟩ := DB.Pop_serial db key index fuel l h
    obtain ⟨db2, h2, hh2⟩ := DB.runOps_serial key fuel ops db1 l.tail hh1
    exact ⟨db2, by simp [DB.runOps, h1, h2, refStackRun], by simpa [refStackRun] using hh2⟩

/-- On the reference stack, pushing values puts them on the list in reverse order. -/
theorem refStackRun_pushAll (ops : List Op) :
    ∀ (xs : List (Payload × Fin numEliminationSlots)) (l : List Payload),
      refStackRun l (pushAll xs ++ ops)
        = refStackRun ((xs.reverse.map fun x => x.1) ++ l) ops
  | [], l => rfl
  | x :: xs, l => by
    have h := refStackRun_pushAll ops xs (x.1 :: l)
    simp only [pushAll, List.map_cons, List.cons_append] at h ⊢
    rw [refStackRun, h]
    simp

/-- On the reference stack, one pop more than there are values returns the values from the
top and then Empty. -/
theorem refStackRun_popAll :
    ∀ (l : List Payload) (slots : List (Fin numEliminationSlots)),
      slots.length = l.length + 1 →
      (refStackRun l (popAll slots)).2 = l.map Result.ok ++ [Result.error Err.ErrEmpty]
  | [], [i], _ => rfl
  | [], [], h => by simp at h
  | [], _ :: _ :: _, h => by simp at h
  | _ :: _, [], h => by simp at h
  | value :: l, i :: slots, h => by
    have h2 := refStackRun_popAll l slots (by simpa using h)
    simp only [popAll, List.map_cons] at h2 ⊢
    rw [refStackRun]
    simp [h2, topResult]

/-- On the reference stack holding `l`, pushing `xs` and popping once more than there are
values returns the pushed values in reverse order, then `l`, then Empty. -/
theorem refStackRun_pushAll_popAll (xs : List (Payload × Fin numEliminationSlots))
    (l : List Payload) (slots : List (Fin numEliminationSlots))
    (h : slots.length = xs.length + l.length + 1) :
    (refStackRun l (pushAll xs ++ popAll slots)).2
      = (xs.reverse.map fun x => Result.ok x.1) ++ l.map Result.ok
          ++ [Result.error Err.ErrEmpty] := by
  rw [refStackRun_pushAll, refStackRun_popAll _ _ (by simpa using h)]
  simp

/-- C8: run one after the other on one key whose queue is at rest (no blocking consumer, empty
elimination slots) with the values `l` on its stack, Push and Pop operations return and the
results of the pops are those of the reference list-based stack started with `l`, the queue
being again at rest with the final list of the reference stack; the same holds, with the
empty reference stack, for a sequence that starts with a Push on a key that has no queue yet.
In particular pushing `x1..xn` and popping `n+1` times on a queue holding nothing, or for
`n ≥ 1` on a key that has no queue yet, yields `xn, ..., x1, Empty`. -/
theorem C8_serial_pops_follow_reference_stack (key : String) (fuel : Nat) (hfuel : 0 < fuel) :
    (∀ (db : DB) (l : List Payload) (ops : List Op), db.QueueHolds key l →
      ∃ db2, db.runOps key fuel ops = some (db2, (refStackRun l ops).2) ∧
        db2.QueueHolds key (refStackRun l ops).1) ∧
    (∀ (db : DB) (value : Payload) (index : Fin numEliminationSlots) (ops : List Op),
      db.queue key = none →
      ∃ db2, db.runOps key fuel (Op.push value index :: ops)
          = some (db2, (refStackRun [] (Op.push value index :: ops)).2) ∧
        db2.QueueHolds key (refStackRun [] (Op.push value index :: ops)).1) ∧
    (∀ (db : DB) (xs : List (Payload × Fin numEliminationSlots))
        (slots : List (Fin numEliminationSlots)),
      (db.QueueHolds key [] ∨ (db.queue key = none ∧ xs ≠ [])) →
      slots.length = xs.length + 1 →
      ∃ db2, db.runOps key fuel (pushAll xs ++ popAll slots)
        = some (db2, (xs.reverse.map fun x => Result.ok x.1) ++ [Result.error Err.ErrEmpty])) := by
  obtain ⟨n, rfl⟩ : ∃ n, fuel = n + 1 := ⟨fuel - 1, by omega⟩
  have fresh : ∀ (db : DB) (value : Payload) (index : Fin numEliminationSlots)
      (ops : List Op), db.queue key = none →
      ∃ db2, db.runOps key (n + 1) (Op.push value index :: ops)
          = some (db2, (refStackRun [] (Op.push value index :: ops)).2) ∧
        db2.QueueHolds key (refStackRun [] (Op.push value index :: ops)).1 := by
    intro db value index ops hq
    obtain ⟨db1, h1, hh1⟩ := DB.Push_serial db key value index n [] (Or.inr ⟨hq, rfl⟩)
    obtain ⟨db2, h2, hh2⟩ := DB.runOps_serial key n ops db1 [value] hh1
    exact ⟨db2, by simp [DB.runOps, h1, h2, refStackRun], by simpa [refStackRun] using hh2⟩
  refine ⟨fun db l ops h => DB.runOps_serial key n ops db l h, fresh, ?_⟩
  intro db xs slots h hlen
  rcases h with h | ⟨hq, hne⟩
  · obtain ⟨db2, h2, _⟩ := DB.runOps_serial key n (pushAll xs ++ popAll slots) db [] h
    refine ⟨db2, ?_⟩
    rw [h2, refStackRun_pushAll_popAll xs [] slots (by simpa using hlen)]
    simp
  · cases xs with
    | nil => exact absurd rfl hne
    | cons x xs =>
      obtain ⟨db2, h2, _⟩ := fresh db x.1 x.2 (pushAll xs ++ popAll slots) hq
      refine ⟨db2, ?_⟩
      have h3 : pushAll (x :: xs) ++ popAll slots
          = Op.push x.1 x.2 :: (pushAll xs ++ popAll slots) := rfl
      rw [h3, h2, ← h3, refStackRun_pushAll_popAll (x :: xs) [] slots (by simpa using hlen)]
      simp

/-- C8, witness: on the new database, pushing `"a"` then `"b"` on the key `"q"` and popping
three times yields `"b"`, `"a"`, Empty. -/
theorem C8_serial_pops_follow_reference_stack_witness :
    0 < 1 ∧ ∃ db2, NewDB.runOps "q" 1
        (pushAll [("a", slot0), ("b", slot0)] ++ popAll [slot0, slot0, slot0])
      = some (db2, [Result.ok "b", Result.ok "a", Result.error Err.ErrEmpty]) :=
  ⟨by decide, (C8_serial_pops_follow_reference_stack "q" 1 (by decide)).2.2 NewDB
    [("a", slot0), ("b", slot0)] [slot0, slot0, slot0]
    (Or.inr ⟨rfl, List.cons_ne_nil _ _⟩) rfl⟩

/-! ## Interleaved executions of Push and Pop -/

/-- C9, the code at two failing interleavings.  First: a Push of `"a"` swaps its node into
slot zero and sleeps; a Pop takes the node from the slot and returns `"a"`; the Push wakes,
its compare-and-swap on the slot fails, and it links the node on the stack; a second Pop
returns `"a"` again: one value pushed, two returned.  Second: a Push of `"a"` swaps its node
into slot zero and sleeps; a Push of `"b"` swaps its node into the same slot, gets the node
of `"a"` back and returns without pushing; the first Push links `"a"`: all calls have
returned, `"b"` was never popped and is not on the stack. -/
theorem C9_elimination_duplicates_and_loses :
    pushPopPop.pushed = ["a"] ∧
    (pushPopPop.run [0, 0, 1, 1, 0, 0, 0, 0, 2, 2, 2, 2, 2]).quiescent = true ∧
    (pushPopPop.run [0, 0, 1, 1, 0, 0, 0, 0, 2, 2, 2, 2, 2]).popped = ["a", "a"] ∧
    pushPush.pushed = ["a", "b"] ∧
    (pushPush.run [0, 0, 1, 1, 1, 0, 0, 0, 0]).quiescent = true ∧
    (pushPush.run [0, 0, 1, 1, 1, 0, 0, 0, 0]).popped = [] ∧
    (pushPush.run [0, 0, 1, 1, 1, 0, 0, 0, 0]).stack.values = ["a"] := by
  decide

/-! ## Blocking pop -/

/-- C10: when the queue of the key exists and its `readLock` is held, `BQPOP` returns
`ErrBlocked` for every timeout, every caller and every amount of fuel, zero included, and
returns the database unchanged. -/
theorem C10_bqpop_blocked_when_mutex_held (db : DB) (key : String) (q : QueueWithBlocking)
    (holder : Nat) (timeout : ℚ) (caller : Nat) (index index2 : Fin numEliminationSlots)
    (wake : Wake) (fuel : Nat)
    (hq : db.queue key = some q) (hl : q.readLock.holder = some holder) :
    db.BQPOP key timeout caller index index2 wake fuel = some (db, Result.error Err.ErrBlocked) := by
  unfold DB.queue at hq
  simp [DB.BQPOP, hq, Mutex.TryLock, hl]

/-- C10, witness: caller `1` waits on the queue `"q"`; the call of caller `2` is blocked. -/
theorem C10_bqpop_blocked_when_mutex_held_witness :
    dbWaiting.BQPOP "q" 5 2 slot0 slot0 Wake.timeout 0
      = some (dbWaiting, Result.error Err.ErrBlocked) :=
  C10_bqpop_blocked_when_mutex_held dbWaiting "q"
    { NewQueueWithBlocking with readLock := ⟨some 1⟩, isBlocked := 1 } 1 5 2 slot0 slot0
    Wake.timeout 0 rfl rfl

/-! ## Non-blocking pop -/

/-- A `Pop` on the stack that draws an empty slot returns the first value of the list the
stack holds, or `ErrEmpty` when the list is empty, and leaves the rest of the list linked
from `top`. -/
theorem TreiberStack.Pop_slot_empty (s : TreiberStack) (index : Fin numEliminationSlots)
    (fuel : Nat) (l : List Payload)
    (he : s.elimination.slots index = none) (hc : Chain s.nodes l s.top) :
    ∃ s2, s.Pop index (fuel + 1) = some (s2, topResult l) ∧ Chain s2.nodes l.tail s2.top := by
  cases l with
  | nil =>
    have ht : s.top = none := hc
    refine ⟨{ top := none, elimination := (s.elimination.exchange index none).2,
              nodes := s.nodes }, ?_, rfl⟩
    simp [TreiberStack.Pop, EliminationArray.exchange, EliminationArray.SwapPointer,
      EliminationArray.CompareAndSwapPointer, EliminationArray.StorePointer, he,
      TreiberStack.popLoop, ht, topResult]
  | cons value l =>
    obtain ⟨a, next, ht, hn, hc2⟩ := hc
    refine ⟨{ top := next, elimination := (s.elimination.exchange index none).2,
              nodes := s.nodes }, ?_, hc2⟩
    simp [TreiberStack.Pop, EliminationArray.exchange, EliminationArray.SwapPointer,
      EliminationArray.CompareAndSwapPointer, EliminationArray.StorePointer, he,
      TreiberStack.popLoop, ht, TreiberStack.CompareAndSwapTop,
      TreiberStack.node, List.getD_eq_getElem?_getD, hn, topResult]

/-- C11 (as amended): for a registered queue, `Pop` fails with `ErrBlocked` and returns the
database unchanged when `isBlocked = 1`; when `isBlocked = 0` it returns what the stack pop
returns, and when moreover the elimination slot the pop draws is empty and the stack holds
the list `l`, that is the first value of `l`, removed from the stack, or `ErrEmpty` when `l`
is empty. -/
theorem C11_pop_contract (db : DB) (key : String) (q : QueueWithBlocking)
    (index : Fin numEliminationSlots) (fuel : Nat) (hq : db.queue key = some q) :
    (q.isBlocked = 1 → db.Pop key index fuel = some (db, Result.error Err.ErrBlocked)) ∧
    (q.isBlocked = 0 →
      db.Pop key index fuel
        = (q.stack.Pop index fuel).map
            fun p => (db.putQueue key { q with stack := p.1 }, p.2)) ∧
    (q.isBlocked = 0 → 0 < fuel → q.stack.elimination.slots index = none →
      ∀ l, Chain q.stack.nodes l q.stack.top →
        ∃ stack, db.Pop key index fuel
            = some (db.putQueue key { q with stack := stack }, topResult l) ∧
          Chain stack.nodes l.tail stack.top) := by
  unfold DB.queue at hq
  have hdel : q.isBlocked = 0 →
      db.Pop key index fuel
        = (q.stack.Pop index fuel).map
            fun p => (db.putQueue key { q with stack := p.1 }, p.2) := by
    intro hb
    simp only [DB.Pop, hq, hb]
    cases q.stack.Pop index fuel <;> simp
  refine ⟨fun hb => by simp [DB.Pop, hq, hb], hdel, ?_⟩
  intro hb hfuel he l hc
  obtain ⟨n, rfl⟩ : ∃ n, fuel = n + 1 := ⟨fuel - 1, by omega⟩
  obtain ⟨s2, hp, hc2⟩ := TreiberStack.Pop_slot_empty q.stack index n l he hc
  exact ⟨s2, by rw [hdel hb, hp]; rfl, hc2⟩

/-- C11, witness: with a consumer waiting on `"q"` the pop is blocked; on the new empty queue
the pop returns `ErrEmpty`. -/
theorem C11_pop_contract_witness :
    dbWaiting.Pop "q" slot0 1 = some (dbWaiting, Result.error Err.ErrBlocked) ∧
    ∃ stack, dbEmptyQueue.Pop "q" slot0 1
        = some (dbEmptyQueue.putQueue "q" { NewQueueWithBlocking with stack := stack },
            Result.error Err.ErrEmpty) ∧
      Chain stack.nodes [] stack.top :=
  ⟨(C11_pop_contract dbWaiting "q"
      { NewQueueWithBlocking with readLock := ⟨some 1⟩, isBlocked := 1 } slot0 1 rfl).1 rfl,
   (C11_pop_contract dbEmptyQueue "q" NewQueueWithBlocking slot0 1 rfl).2.2 rfl (by decide)
      rfl [] rfl⟩

/-- C11, counterexample: the queue `"q"` exists with `isBlocked = 0` and an empty linked
stack, while a sleeping pusher offers the node of `"x"` in slot zero; a `Pop` drawing slot
zero returns `"x"`, not `ErrEmpty`. -/
theorem C11_pop_takes_offer_on_empty_stack :
    (dbOffer.queue "q").map (fun q => (q.isBlocked, q.stack.top, q.stack.values))
      = some (0, none, []) ∧
    (dbOffer.Pop "q" slot0 1).map Prod.snd = some (Result.ok "x") ∧
    (dbOffer.Pop "q" slot0 1).map Prod.snd ≠ some (Result.error Err.ErrEmpty) := by
  decide

/-! ## Interleaved executions of Push, Pop and BQPOP -/

theorem QPC.holdsLock_of_flagSet (pc : QPC) (h : pc.flagSet = true) : pc.holdsLock = true := by
  cases pc <;> simp_all [QPC.flagSet, QPC.holdsLock]

/-- What one step of a call does to the flag, to the mutex and to the position of the call
with respect to them: nothing; or it takes the free mutex; or, holding the mutex, it sets the
flag, clears the flag, or releases the mutex with the flag cleared. -/
theorem QPC.step_effect (q : QueueWithBlocking) (caller : Nat) (wake : Wake) (pc : QPC) :
    ((pc.step q caller wake).1.isBlocked = q.isBlocked ∧
      (pc.step q caller wake).1.readLock = q.readLock ∧
      (pc.step q caller wake).2.holdsLock = pc.holdsLock ∧
      (pc.step q caller wake).2.flagSet = pc.flagSet) ∨
    (pc.holdsLock = false ∧ q.readLock.holder = none ∧
      (pc.step q caller wake).1.readLock.holder = some caller ∧
      (pc.step q caller wake).1.isBlocked = q.isBlocked ∧
      (pc.step q caller wake).2.holdsLock = true ∧
      (pc.step q caller wake).2.flagSet = false) ∨
    (pc.holdsLock = true ∧ (pc.step q caller wake).2.holdsLock = true ∧
      (pc.step q caller wake).2.flagSet = true ∧
      (pc.step q caller wake).1.isBlocked = 1 ∧
      (pc.step q caller wake).1.readLock = q.readLock) ∨
    (pc.holdsLock = true ∧ (pc.step q caller wake).2.holdsLock = true ∧
      (pc.step q caller wake).2.flagSet = false ∧
      (pc.step q caller wake).1.isBlocked = 0 ∧
      (pc.step q caller wake).1.readLock = q.readLock) ∨
    (pc.holdsLock = true ∧ pc.flagSet = false ∧
      (pc.step q caller wake).2.holdsLock = false ∧
      (pc.step q caller wake).1.readLock.holder = none ∧
      (pc.step q caller wake).1.isBlocked = q.isBlocked) := by
  cases pc with
  | pushStack pc =>
    left
    simp only [QPC.step]
    split <;> simp [QPC.holdsLock, QPC.flagSet]
  | pushLoad =>
    left
    simp only [QPC.step]
    split <;> simp [QPC.holdsLock, QPC.flagSet]
  | pushSend =>
    left
    simp only [QPC.step, QueueWithBlocking.trySend]
    split <;> simp [QPC.holdsLock, QPC.flagSet]
  | pushDone => left; simp [QPC.step]
  | popLoad index =>
    left
    simp only [QPC.step]
    split <;> simp [QPC.holdsLock, QPC.flagSet]
  | popStack pc =>
    left
    simp only [QPC.step]
    split <;> simp [QPC.holdsLock, QPC.flagSet]
  | popDone r => left; simp [QPC.step]
  | bqTryLock timeout index index2 =>
    cases hh : q.readLock.holder with
    | none => right; left; simp [QPC.step, Mutex.TryLock, hh, QPC.holdsLock, QPC.flagSet]
    | some t => left; simp [QPC.step, Mutex.TryLock, hh, QPC.holdsLock, QPC.flagSet]
  | bqPop timeout index2 pc =>
    left
    simp only [QPC.step]
    split
    · simp [QPC.holdsLock, QPC.flagSet]
    · split <;> simp [QPC.holdsLock, QPC.flagSet]
    · simp [QPC.holdsLock, QPC.flagSet]
  | bqStore index2 => right; right; left; simp [QPC.step, QPC.holdsLock, QPC.flagSet]
  | bqSelect index2 =>
    left
    cases wake with
    | timeout => simp [QPC.step, QPC.holdsLock, QPC.flagSet]
    | signal =>
      simp only [QPC.step]
      split <;> simp [QPC.holdsLock, QPC.flagSet]
  | bqPop2 pc =>
    left
    simp only [QPC.step]
    split <;> simp [QPC.holdsLock, QPC.flagSet]
  | bqClear r => right; right; right; left; simp [QPC.step, QPC.holdsLock, QPC.flagSet]
  | bqUnlock r =>
    right; right; right; right
    simp [QPC.step, QPC.holdsLock, QPC.flagSet, Mutex.Unlock]
  | bqDone r => left; simp [QPC.step]

/-- Every step of every call preserves the agreement of mutex and flag with the program
points. -/
theorem QSystem.Inv_step (σ : QSystem) (move : Nat × Wake) (h : σ.Inv) : (σ.step move).Inv := by
  obtain ⟨t, wake⟩ := move
  unfold QSystem.step
  cases hc : σ.calls[t]? with
  | none => simpa [hc] using h
  | some pc =>
    simp only [hc]
    have hlt : t < σ.calls.length := by
      by_contra hge
      rw [List.getElem?_eq_none (Nat.le_of_not_lt hge)] at hc
      cases hc
    have hnt : ∀ pc2 : QPC, (σ.calls.set t pc2)[t]? = some pc2 := fun pc2 =>
      List.getElem?_set_self hlt
    have hnu : ∀ (pc2 : QPC) (u : Nat), u ≠ t → (σ.calls.set t pc2)[u]? = σ.calls[u]? :=
      fun pc2 u hu => List.getElem?_set_ne (Ne.symm hu)
    obtain ⟨h0, h1, h2, h3⟩ := h
    have hold : pc.holdsLock = true → σ.queue.readLock.holder = some t := h1 t pc hc
    have huniq : ∀ (u : Nat) (pcu : QPC), σ.calls[u]? = some pcu → pcu.holdsLock = true →
        pc.holdsLock = true → u = t := by
      intro u pcu hu hl hp
      have := h1 u pcu hu hl
      rw [hold hp] at this
      exact (Option.some.inj this).symm
    have hflag : ∀ (u : Nat) (pcu : QPC), σ.calls[u]? = some pcu → pcu.flagSet = true →
        pc.holdsLock = true → u = t := fun u pcu hu hf hp =>
      huniq u pcu hu (QPC.holdsLock_of_flagSet pcu hf) hp
    have eff := QPC.step_effect σ.queue t wake pc
    generalize pc.step σ.queue t wake = r at eff ⊢
    simp only [QSystem.Inv]
    rcases eff with ⟨eb, el, ehl, efl⟩ | ⟨ep, en, eh, eb, ehl, efl⟩ | ⟨ep, ehl, efl, eb, el⟩ |
      ⟨ep, ehl, efl, eb, el⟩ | ⟨ep, epf, ehl, eh, eb⟩
    · -- the step touches neither the flag nor the mutex
      refine ⟨eb ▸ h0, ?_, ?_, ?_⟩
      · intro u pcu hu hl
        rw [el]
        by_cases hut : u = t
        · subst hut
          rw [hnt] at hu
          cases hu
          exact hold (ehl ▸ hl)
        · rw [hnu _ _ hut] at hu
          exact h1 u pcu hu hl
      · intro u hh
        rw [el] at hh
        obtain ⟨pcu, hcu, hlu⟩ := h2 u hh
        by_cases hut : u = t
        · subst hut
          rw [hc] at hcu
          cases hcu
          exact ⟨r.2, hnt _, ehl ▸ hlu⟩
        · exact ⟨pcu, (hnu _ _ hut).trans hcu, hlu⟩
      · rw [eb, h3]
        constructor
        · rintro ⟨u, pcu, hcu, hfu⟩
          by_cases hut : u = t
          · subst hut
            rw [hc] at hcu
            cases hcu
            exact ⟨u, r.2, hnt _, efl ▸ hfu⟩
          · exact ⟨u, pcu, (hnu _ _ hut).trans hcu, hfu⟩
        · rintro ⟨u, pcu, hcu, hfu⟩
          by_cases hut : u = t
          · subst hut
            rw [hnt] at hcu
            cases hcu
            exact ⟨u, pc, hc, efl ▸ hfu⟩
          · rw [hnu _ _ hut] at hcu
            exact ⟨u, pcu, hcu, hfu⟩
    · -- the step takes the free mutex
      have hnone : ∀ (u : Nat) (pcu : QPC), σ.calls[u]? = some pcu → pcu.holdsLock = true →
          False := by
        intro u pcu hu hl
        have := h1 u pcu hu hl
        rw [en] at this
        cases this
      refine ⟨eb ▸ h0, ?_, ?_, ?_⟩
      · intro u pcu hu hl
        by_cases hut : u = t
        · subst hut
          exact eh
        · rw [hnu _ _ hut] at hu
          exact (hnone u pcu hu hl).elim
      · intro u hh
        rw [eh] at hh
        cases hh
        exact ⟨r.2, hnt _, ehl⟩
      · rw [eb, h3]
        constructor
        · rintro ⟨u, pcu, hcu, hfu⟩
          exact (hnone u pcu hcu (QPC.holdsLock_of_flagSet pcu hfu)).elim
        · rintro ⟨u, pcu, hcu, hfu⟩
          by_cases hut : u = t
          · subst hut
            rw [hnt] at hcu
            cases hcu
            rw [efl] at hfu
            cases hfu
          · rw [hnu _ _ hut] at hcu
            exact (hnone u pcu hcu (QPC.holdsLock_of_flagSet pcu hfu)).elim
    · -- the holder sets the flag
      refine ⟨Or.inr eb, ?_, ?_, ?_⟩
      · intro u pcu hu hl
        rw [el]
        by_cases hut : u = t
        · subst hut
          exact hold ep
        · rw [hnu _ _ hut] at hu
          exact h1 u pcu hu hl
      · intro u hh
        rw [el, hold ep] at hh
        cases hh
        exact ⟨r.2, hnt _, ehl⟩
      · exact ⟨fun _ => ⟨t, r.2, hnt _, efl⟩, fun _ => eb⟩
    · -- the holder clears the flag
      refine ⟨Or.inl eb, ?_, ?_, ?_⟩
      · intro u pcu hu hl
        rw [el]
        by_cases hut : u = t
        · subst hut
          exact hold ep
        · rw [hnu _ _ hut] at hu
          exact h1 u pcu hu hl
      · intro u hh
        rw [el, hold ep] at hh
        cases hh
        exact ⟨r.2, hnt _, ehl⟩
      · rw [eb]
        constructor
        · intro h01
          exact absurd h01 (by decide)
        · rintro ⟨u, pcu, hcu, hfu⟩
          by_cases hut : u = t
          · subst hut
            rw [hnt] at hcu
            cases hcu
            rw [efl] at hfu
            cases hfu
          · rw [hnu _ _ hut] at hcu
            exact absurd (hflag u pcu hcu hfu ep) hut
    · -- the holder releases the mutex, the flag being cleared
      refine ⟨eb ▸ h0, ?_, ?_, ?_⟩
      · intro u pcu hu hl
        by_cases hut : u = t
        · subst hut
          rw [hnt] at hu
          cases hu
          rw [ehl] at hl
          cases hl
        · rw [hnu _ _ hut] at hu
          exact absurd (huniq u pcu hu hl ep) hut
      · intro u hh
        rw [eh] at hh
        cases hh
      · rw [eb, h3]
        constructor
        · rintro ⟨u, pcu, hcu, hfu⟩
          have hut := hflag u pcu hcu hfu ep
          subst hut
          rw [hc] at hcu
          cases hcu
          rw [epf] at hfu
          cases hfu
        · rintro ⟨u, pcu, hcu, hfu⟩
          by_cases hut : u = t
          · subst hut
            rw [hnt] at hcu
            cases hcu
            have := QPC.holdsLock_of_flagSet _ hfu
            rw [ehl] at this
            cases this
          · rw [hnu _ _ hut] at hcu
            exact absurd (hflag u pcu hcu hfu ep) hut

theorem QSystem.Inv_run (schedule : List (Nat × Wake)) :
    ∀ σ : QSystem, σ.Inv → (σ.run schedule).Inv := by
  induction schedule with
  | nil => exact fun σ h => h
  | cons move schedule ih => exact fun σ h => ih (σ.step move) (QSystem.Inv_step σ move h)

/-- A queue with the flag cleared and the mutex free, no call being between `TryLock` and
`Unlock`, satisfies the invariant. -/
theorem QSystem.Inv_init (σ : QSystem) (hb : σ.queue.isBlocked = 0)
    (hm : σ.queue.readLock.holder = none) (hs : ∀ pc ∈ σ.calls, pc.holdsLock = false) :
    σ.Inv := by
  have hno : ∀ (t : Nat) (pc : QPC), σ.calls[t]? = some pc → pc.holdsLock = true → False := by
    intro t pc hc hl
    have := hs pc (List.mem_iff_getElem?.mpr ⟨_, hc⟩)
    rw [hl] at this
    cases this
  refine ⟨Or.inl hb, fun t pc hc hl => (hno t pc hc hl).elim, ?_, ?_⟩
  · intro t ht
    rw [hm] at ht
    cases ht
  · rw [hb]
    constructor
    · intro h01
      exact absurd h01 (by decide)
    · rintro ⟨t, pc, hc, hf⟩
      exact (hno t pc hc (QPC.holdsLock_of_flagSet pc hf)).elim

/-- C18: start from a queue with `isBlocked = 0` and a free mutex, with any calls of Push, Pop
and BQPOP none of which is between `TryLock` and `Unlock`, and let the calls take their
atomic steps in any order, the timeout or the signal case firing in any waiting `select`.
In every state reached: `isBlocked` is `0` or `1`; at most one call is between its successful
`TryLock` and its `Unlock`, and it is the holder of the mutex; `isBlocked = 1` implies that
the mutex is held by a BQPOP call that has set the flag and has not returned; and when no
call holds the mutex, in particular when no BQPOP call is in progress, `isBlocked = 0` and
the mutex is free. -/
theorem C18_mutex_and_flag_invariant (σ : QSystem) (schedule : List (Nat × Wake))
    (hb : σ.queue.isBlocked = 0) (hm : σ.queue.readLock.holder = none)
    (hs : ∀ pc ∈ σ.calls, pc.holdsLock = false) :
    ((σ.run schedule).queue.isBlocked = 0 ∨ (σ.run schedule).queue.isBlocked = 1) ∧
    (∀ (t u : Nat) (pc pcu : QPC), (σ.run schedule).calls[t]? = some pc →
      pc.holdsLock = true → (σ.run schedule).calls[u]? = some pcu → pcu.holdsLock = true →
      t = u ∧ (σ.run schedule).queue.readLock.holder = some t) ∧
    ((σ.run schedule).queue.isBlocked = 1 →
      ∃ (t : Nat) (pc : QPC), (σ.run schedule).queue.readLock.holder = some t ∧
        (σ.run schedule).calls[t]? = some pc ∧ pc.flagSet = true ∧ pc.inBQPOP = true) ∧
    ((∀ pc ∈ (σ.run schedule).calls, pc.holdsLock = false) →
      (σ.run schedule).queue.isBlocked = 0 ∧
      (σ.run schedule).queue.readLock.holder = none) ∧
    ((∀ pc ∈ (σ.run schedule).calls, pc.inBQPOP = false) →
      (σ.run schedule).queue.isBlocked = 0 ∧
      (σ.run schedule).queue.readLock.holder = none) := by
  obtain ⟨h0, h1, h2, h3⟩ := QSystem.Inv_run schedule σ (QSystem.Inv_init σ hb hm hs)
  generalize σ.run schedule = τ at h0 h1 h2 h3 ⊢
  have hfree : (∀ pc ∈ τ.calls, pc.holdsLock = false) →
      τ.queue.isBlocked = 0 ∧ τ.queue.readLock.holder = none := by
    intro hn
    constructor
    · rcases h0 with h0 | h0
      · exact h0
      · obtain ⟨t, pc, hc, hf⟩ := h3.mp h0
        have := hn pc (List.mem_iff_getElem?.mpr ⟨_, hc⟩)
        rw [QPC.holdsLock_of_flagSet pc hf] at this
        cases this
    · cases hh : τ.queue.readLock.holder with
      | none => rfl
      | some t =>
        obtain ⟨pc, hc, hl⟩ := h2 t hh
        have := hn pc (List.mem_iff_getElem?.mpr ⟨_, hc⟩)
        rw [hl] at this
        cases this
  refine ⟨h0, ?_, ?_, hfree, ?_⟩
  · intro t u pc pcu hc hl hcu hlu
    have ht := h1 t pc hc hl
    have hu := h1 u pcu hcu hlu
    rw [ht] at hu
    exact ⟨Option.some.inj hu, ht⟩
  · intro hb1
    obtain ⟨t, pc, hc, hf⟩ := h3.mp hb1
    refine ⟨t, pc, h1 t pc hc (QPC.holdsLock_of_flagSet pc hf), hc, hf, ?_⟩
    revert hf
    cases pc <;> simp [QPC.flagSet, QPC.inBQPOP]
  · intro hn
    apply hfree
    intro pc hpc
    have := hn pc hpc
    revert this
    cases pc <;> simp [QPC.holdsLock, QPC.inBQPOP]

/-- C18, witness: two blocking pops and one push on a new queue; after the first blocking pop
has taken its five steps up to the `select`, the flag is set and that call holds the mutex. -/
theorem C18_mutex_and_flag_invariant_witness :
    ∃ (t : Nat) (pc : QPC),
      (twoWaitersOnePush.run [(0, .timeout), (0, .timeout), (0, .timeout), (0, .timeout),
        (0, .timeout)]).queue.readLock.holder = some t ∧
      (twoWaitersOnePush.run [(0, .timeout), (0, .timeout), (0, .timeout), (0, .timeout),
        (0, .timeout)]).calls[t]? = some pc ∧ pc.flagSet = true ∧ pc.inBQPOP = true :=
  (C18_mutex_and_flag_invariant twoWaitersOnePush
    [(0, .timeout), (0, .timeout), (0, .timeout), (0, .timeout), (0, .timeout)]
    rfl rfl (by decide)).2.2.1 (by decide)

/-! ## Blocking pop run without interference -/

/-- The uninterrupted `BQPOP` on a queue whose mutex is free, registered (`db0 = db`) or
created by the call (`db0` is `db` with the new queue), in terms of the result of its
immediate stack pop: a value is returned; an empty pop returns `ErrEmpty`, at once when the
timeout is not positive, and after the timeout when no signal is buffered. -/
theorem DB.BQPOP_free (db db0 : DB) (key : String) (timeout : ℚ) (caller : Nat)
    (index index2 : Fin numEliminationSlots) (wake : Wake) (fuel : Nat)
    (q : QueueWithBlocking) (stack : TreiberStack) (r : Result)
    (hq : (db.queue key = some q ∧ db0 = db) ∨
      (db.queue key = none ∧ q = NewQueueWithBlocking ∧
        db0 = db.putQueue key NewQueueWithBlocking))
    (hm : q.readLock.holder = none) (hp : q.stack.Pop index fuel = some (stack, r)) :
    (∀ value, r = Result.ok value →
      db.BQPOP key timeout caller index index2 wake fuel
        = some (db0.putQueue key { q with stack := stack, readLock := ⟨none⟩ },
            Result.ok value)) ∧
    (∀ e, r = Result.error e → timeout ≤ 0 →
      db.BQPOP key timeout caller index index2 wake fuel
        = some (db0.putQueue key { q with stack := stack, readLock := ⟨none⟩ },
            Result.error Err.ErrEmpty)) ∧
    (∀ e, r = Result.error e → 0 < timeout → q.signal = 0 →
      db.BQPOP key timeout caller index index2 wake fuel
        = some (db0.putQueue key
            { q with stack := stack, isBlocked := 0, readLock := ⟨none⟩ },
            Result.error Err.ErrEmpty)) := by
  unfold DB.queue at hq
  rcases hq with ⟨hq, rfl⟩ | ⟨hq, rfl, rfl⟩
  · refine ⟨?_, ?_, ?_⟩
    · rintro value rfl
      simp [DB.BQPOP, hq, Mutex.TryLock, hm, hp, Mutex.Unlock]
    · rintro e rfl ht
      simp [DB.BQPOP, hq, Mutex.TryLock, hm, hp, Mutex.Unlock, ht]
    · rintro e rfl ht hs
      simp [DB.BQPOP, hq, Mutex.TryLock, hm, hp, Mutex.Unlock, not_le.mpr ht, hs]
  · refine ⟨?_, ?_, ?_⟩
    · rintro value rfl
      simp [DB.BQPOP, hq, Mutex.TryLock, hm, hp, Mutex.Unlock]
    · rintro e rfl ht
      simp [DB.BQPOP, hq, Mutex.TryLock, hm, hp, Mutex.Unlock, ht]
    · rintro e rfl ht hs
      simp [DB.BQPOP, hq, Mutex.TryLock, hm, hp, Mutex.Unlock, not_le.mpr ht, hs]

/-- A step of a `BQPOP` that will not wait leaves `isBlocked` as it is, and the call still
will not wait. -/
theorem QPC.step_neverWaits (q : QueueWithBlocking) (caller : Nat) (wake : Wake) (pc : QPC)
    (h : pc.neverWaits = true) :
    (pc.step q caller wake).2.neverWaits = true ∧
    (pc.step q caller wake).1.isBlocked = q.isBlocked := by
  cases pc with
  | bqTryLock timeout index index2 =>
    simp only [QPC.step]
    split
    · simpa [QPC.neverWaits] using h
    · simp [QPC.neverWaits]
  | bqPop timeout index2 pc =>
    have ht : timeout ≤ 0 := by simpa [QPC.neverWaits] using h
    simp only [QPC.step]
    split <;> simp [QPC.neverWaits, ht]
  | bqUnlock r => simp [QPC.step, QPC.neverWaits]
  | bqDone r => simp [QPC.step, QPC.neverWaits]
  | _ => simp [QPC.neverWaits] at h

/-- Running alone, a `BQPOP` that will not wait never changes `isBlocked`. -/
theorem QPC.runAlone_neverWaits (caller : Nat) (wake : Wake) :
    ∀ (n : Nat) (q : QueueWithBlocking) (pc : QPC), pc.neverWaits = true →
      (QPC.runAlone caller wake n q pc).1.isBlocked = q.isBlocked
  | 0, _, _, _ => rfl
  | n + 1, q, pc, h => by
    obtain ⟨h1, h2⟩ := QPC.step_neverWaits q caller wake pc h
    rw [QPC.runAlone, QPC.runAlone_neverWaits caller wake n _ _ h1, h2]

/-- The uninterrupted `BQPOP` that does not wait (the drawn slot is empty, and the stack is not
empty or the timeout is not positive) is the call of the step model taking its steps alone:
seven steps reach the return, with the same queue and the same result. -/
theorem DB.BQPOP_eq_runAlone (db : DB) (key : String) (q : QueueWithBlocking) (timeout : ℚ)
    (caller : Nat) (index index2 : Fin numEliminationSlots) (wake : Wake) (fuel : Nat)
    (hq : db.queue key = some q) (hm : q.readLock.holder = none)
    (hs : q.stack.elimination.slots index = none)
    (hnw : q.stack.top ≠ none ∨ timeout ≤ 0) :
    ∃ r, (QPC.runAlone caller wake 7 q (.bqTryLock timeout index index2)).2 = .bqDone r ∧
      db.BQPOP key timeout caller index index2 wake (fuel + 1)
        = some (db.putQueue key
            (QPC.runAlone caller wake 7 q (.bqTryLock timeout index index2)).1, r) := by
  unfold DB.queue at hq
  cases ht : q.stack.top with
  | none =>
    have hto : timeout ≤ 0 := by
      rcases hnw with h | h
      · exact absurd ht h
      · exact h
    simp [QPC.runAlone, QPC.step, PC.step, DB.BQPOP, hq, Mutex.TryLock, Mutex.Unlock, hm,
      TreiberStack.Pop, EliminationArray.exchange, EliminationArray.SwapPointer,
      EliminationArray.CompareAndSwapPointer, EliminationArray.StorePointer,
      TreiberStack.popLoop, hs, ht, hto]
  | some a =>
    simp [QPC.runAlone, QPC.step, PC.step, DB.BQPOP, hq, Mutex.TryLock, Mutex.Unlock, hm,
      TreiberStack.Pop, EliminationArray.exchange, EliminationArray.SwapPointer,
      EliminationArray.CompareAndSwapPointer, EliminationArray.StorePointer,
      TreiberStack.popLoop, TreiberStack.CompareAndSwapTop, TreiberStack.node, hs, ht]

/-- The uninterrupted `BQPOP` that waits on an empty stack until its timeout is the call of
the step model taking its steps alone, the timeout firing in the `select`. -/
theorem DB.BQPOP_eq_runAlone_timeout (db : DB) (key : String) (q : QueueWithBlocking)
    (timeout : ℚ) (caller : Nat) (index index2 : Fin numEliminationSlots) (wake : Wake)
    (fuel : Nat) (hq : db.queue key = some q) (hm : q.readLock.holder = none)
    (hs : q.stack.elimination.slots index = none) (ht : q.stack.top = none)
    (hto : 0 < timeout) (hw : ¬ (wake = .signal ∧ 0 < q.signal)) :
    (QPC.runAlone caller .timeout 8 q (.bqTryLock timeout index index2)).2
      = .bqDone (.error .ErrEmpty) ∧
    db.BQPOP key timeout caller index index2 wake (fuel + 1)
      = some (db.putQueue key
          (QPC.runAlone caller .timeout 8 q (.bqTryLock timeout index index2)).1,
          .error .ErrEmpty) := by
  unfold DB.queue at hq
  simp [QPC.runAlone, QPC.step, PC.step, DB.BQPOP, hq, Mutex.TryLock, Mutex.Unlock, hm,
    TreiberStack.Pop, EliminationArray.exchange, EliminationArray.SwapPointer,
    EliminationArray.CompareAndSwapPointer, EliminationArray.StorePointer,
    TreiberStack.popLoop, hs, ht, not_le.mpr hto, hw]

/-- The uninterrupted `BQPOP` that waits on an empty stack at rest and receives a buffered
signal is the call of the step model taking its steps alone, the signal case firing in the
`select`: the second stack pop finds the stack empty. -/
theorem DB.BQPOP_eq_runAlone_signal (db : DB) (key : String) (q : QueueWithBlocking)
    (timeout : ℚ) (caller : Nat) (index index2 : Fin numEliminationSlots)
    (fuel : Nat) (hq : db.queue key = some q) (hm : q.readLock.holder = none)
    (hs : ∀ i, q.stack.elimination.slots i = none) (ht : q.stack.top = none)
    (hto : 0 < timeout) (hw : 0 < q.signal) :
    (QPC.runAlone caller .signal 11 q (.bqTryLock timeout index index2)).2
      = .bqDone (.error .ErrEmpty) ∧
    db.BQPOP key timeout caller index index2 .signal (fuel + 1)
      = some (db.putQueue key
          (QPC.runAlone caller .signal 11 q (.bqTryLock timeout index index2)).1,
          .error .ErrEmpty) := by
  unfold DB.queue at hq
  simp [QPC.runAlone, QPC.step, PC.step, DB.BQPOP, hq, Mutex.TryLock, Mutex.Unlock, hm,
    TreiberStack.Pop, EliminationArray.exchange, EliminationArray.SwapPointer,
    EliminationArray.CompareAndSwapPointer, EliminationArray.StorePointer,
    TreiberStack.popLoop, hs, ht, not_le.mpr hto, hw]

/-- C12: on a registered queue at rest (no other call in progress: flag cleared, slots empty)
whose mutex is free, the uninterrupted `BQPOP` returns the top value and removes it when the
stack is not empty, for every timeout; on an empty stack with a timeout that is not positive
it returns `ErrEmpty`, and no step of the call ever changes `isBlocked`; in both cases the
queue is left at rest, with `isBlocked = 0`, and the mutex free. -/
theorem C12_bqpop_without_interference (db : DB) (key : String) (q : QueueWithBlocking)
    (l : List Payload) (timeout : ℚ) (caller : Nat) (index index2 : Fin numEliminationSlots)
    (wake : Wake) (fuel : Nat)
    (hq : db.queue key = some q) (hm : q.readLock.holder = none) (hh : q.Holds l)
    (hfuel : 0 < fuel) :
    (∀ value rest, l = value :: rest →
      ∃ db2 q2, db.BQPOP key timeout caller index index2 wake fuel
          = some (db2, Result.ok value) ∧
        db2.queue key = some q2 ∧ q2.Holds rest ∧ q2.readLock.holder = none) ∧
    (l = [] → timeout ≤ 0 →
      (∃ db2 q2, db.BQPOP key timeout caller index index2 wake fuel
          = some (db2, Result.error Err.ErrEmpty) ∧
        db2.queue key = some q2 ∧ q2.Holds [] ∧ q2.readLock.holder = none) ∧
      ∀ n, (QPC.runAlone caller wake n q (.bqTryLock timeout index index2)).1.isBlocked = 0) := by
  obtain ⟨n, rfl⟩ : ∃ n, fuel = n + 1 := ⟨fuel - 1, by omega⟩
  obtain ⟨hb, he, hc⟩ := hh
  obtain ⟨s2, hp, he2, hc2⟩ := TreiberStack.Pop_alone q.stack index n l he hc
  obtain ⟨h1, h2, _⟩ := DB.BQPOP_free db db key timeout caller index index2 wake (n + 1) q s2
    (topResult l) (Or.inl ⟨hq, rfl⟩) hm hp
  constructor
  · rintro value rest rfl
    exact ⟨_, _, h1 value rfl, DB.queue_putQueue_self _ _ _, ⟨hb, he2, hc2⟩, rfl⟩
  · rintro rfl ht
    refine ⟨⟨_, _, h2 Err.ErrEmpty rfl ht, DB.queue_putQueue_self _ _ _, ⟨hb, he2, hc2⟩, rfl⟩, ?_⟩
    intro m
    rw [QPC.runAlone_neverWaits caller wake m q _ (by simpa [QPC.neverWaits] using ht), hb]

/-- C12, witness: on the queue holding `"a"` the blocking pop with timeout zero returns
`"a"`; on the new empty queue it returns `ErrEmpty`. -/
theorem C12_bqpop_without_interference_witness :
    (∃ db2 q2, dbOneValue.BQPOP "q" 0 7 slot0 slot0 Wake.timeout 1
        = some (db2, Result.ok "a") ∧
      db2.queue "q" = some q2 ∧ q2.Holds [] ∧ q2.readLock.holder = none) ∧
    (∃ db2 q2, dbEmptyQueue.BQPOP "q" 0 7 slot0 slot0 Wake.timeout 1
        = some (db2, Result.error Err.ErrEmpty) ∧
      db2.queue "q" = some q2 ∧ q2.Holds [] ∧ q2.readLock.holder = none) :=
  ⟨(C12_bqpop_without_interference dbOneValue "q" queueOneValue ["a"] 0 7 slot0 slot0
      Wake.timeout 1 rfl rfl ⟨rfl, fun _ => rfl, 0, none, rfl, rfl, rfl⟩ (by decide)).1
      "a" [] rfl,
   ((C12_bqpop_without_interference dbEmptyQueue "q" NewQueueWithBlocking [] 0 7 slot0 slot0
      Wake.timeout 1 rfl rfl NewQueueWithBlocking_Holds (by decide)).2 rfl (le_refl 0)).1⟩

/-- C13: on a key without queue, `Pop` fails with "queue does not exist" and returns the
database unchanged, whereas the uninterrupted `BQPOP` registers a new queue for the key and
returns `ErrEmpty`, for every timeout, leaving the queue at rest, empty, with the mutex free;
a `Pop` that follows returns `ErrEmpty`. -/
theorem C13_pop_needs_queue_bqpop_creates_it (db : DB) (key : String) (timeout : ℚ)
    (caller : Nat) (index index2 : Fin numEliminationSlots) (wake : Wake) (fuel : Nat)
    (hq : db.queue key = none) (hfuel : 0 < fuel) :
    db.Pop key index fuel = some (db, Result.error Err.queueDoesNotExist) ∧
    ∃ db1 q1, db.BQPOP key timeout caller index index2 wake fuel
        = some (db1, Result.error Err.ErrEmpty) ∧
      db1.queue key = some q1 ∧ q1.Holds [] ∧ q1.readLock.holder = none ∧
      ∃ db2, db1.Pop key index fuel = some (db2, Result.error Err.ErrEmpty) := by
  obtain ⟨n, rfl⟩ : ∃ n, fuel = n + 1 := ⟨fuel - 1, by omega⟩
  constructor
  · unfold DB.queue at hq
    simp [DB.Pop, hq]
  · obtain ⟨hb, he, hc⟩ := NewQueueWithBlocking_Holds
    obtain ⟨s2, hp, he2, hc2⟩ :=
      TreiberStack.Pop_alone NewQueueWithBlocking.stack index n [] he hc
    obtain ⟨_, h2, h3⟩ := DB.BQPOP_free db (db.putQueue key NewQueueWithBlocking) key timeout
      caller index index2 wake (n + 1) NewQueueWithBlocking s2 (topResult [])
      (Or.inr ⟨hq, rfl, rfl⟩) rfl hp
    have hpop : ∀ (db1 : DB) (q1 : QueueWithBlocking), db1.queue key = some q1 → q1.Holds [] →
        ∃ db2, db1.Pop key index (n + 1) = some (db2, Result.error Err.ErrEmpty) := by
      intro db1 q1 h1 hh1
      obtain ⟨db2, hd, _⟩ := DB.Pop_serial db1 key index n [] ⟨q1, h1, hh1⟩
      exact ⟨db2, hd⟩
    by_cases ht : timeout ≤ 0
    · exact ⟨_, _, h2 Err.ErrEmpty rfl ht, DB.queue_putQueue_self _ _ _, ⟨hb, he2, hc2⟩, rfl,
        hpop _ _ (DB.queue_putQueue_self _ _ _) ⟨hb, he2, hc2⟩⟩
    · exact ⟨_, _, h3 Err.ErrEmpty rfl (not_le.mp ht) rfl, DB.queue_putQueue_self _ _ _,
        ⟨rfl, he2, hc2⟩, rfl, hpop _ _ (DB.queue_putQueue_self _ _ _) ⟨rfl, he2, hc2⟩⟩

/-- C13, witness: on the new database the key `"q"` has no queue. -/
theorem C13_pop_needs_queue_bqpop_creates_it_witness :
    NewDB.Pop "q" slot0 1 = some (NewDB, Result.error Err.queueDoesNotExist) ∧
    ∃ db1 q1, NewDB.BQPOP "q" 0 7 slot0 slot0 Wake.timeout 1
        = some (db1, Result.error Err.ErrEmpty) ∧
      db1.queue "q" = some q1 ∧ q1.Holds [] ∧ q1.readLock.holder = none ∧
      ∃ db2, db1.Pop "q" slot0 1 = some (db2, Result.error Err.ErrEmpty) :=
  C13_pop_needs_queue_bqpop_creates_it NewDB "q" 0 7 slot0 slot0 Wake.timeout 1 rfl (by decide)

/-! ## Reaper -/

theorem GoMap.get_delete_self {β : Type} (m : GoMap β) (k : String) :
    (m.delete k).get k = none := by
  simp [GoMap.delete, GoMap.get]

theorem GoMap.get_eq_none_of_not_mem_keys {β : Type} (m : GoMap β) (k : String)
    (h : k ∉ m.keys) : m.get k = none := by
  simp only [GoMap.keys, List.mem_map, not_exists, not_and] at h
  simp only [GoMap.get, Option.map_eq_none', List.find?_eq_none]
  intro p hp hk
  exact h p hp (by simpa using hk)

/-- One round of the sweep on the key it visits, and on the other keys. -/
theorem Shard.get_sweepKey (now : Time) (data : GoMap Entry) (key k : String) :
    (Shard.sweepKey now data key).get k
      = if k = key then (data.get k).filter (Entry.freshAt now) else data.get k := by
  unfold Shard.sweepKey
  by_cases hk : k = key
  · subst hk
    cases hg : data.get k with
    | none => simp [hg]
    | some entry =>
      by_cases hx : Time.After now entry.ExpiresAt = true
      · simp [hx, GoMap.get_delete_self, Option.filter, Entry.freshAt]
      · simp [hx, hg, Option.filter, Entry.freshAt]
  · simp only [hk, if_false]
    cases hg : data.get key with
    | none => rfl
    | some entry =>
      by_cases hx : Time.After now entry.ExpiresAt = true
      · simp [hx, GoMap.get_delete_other _ _ _ hk]
      · simp [hx]

theorem Option.filter_freshAt_idem (now : Time) (o : Option Entry) :
    (o.filter (Entry.freshAt now)).filter (Entry.freshAt now) = o.filter (Entry.freshAt now) := by
  cases o with
  | none => rfl
  | some entry => by_cases h : Entry.freshAt now entry = true <;> simp [Option.filter, h]

/-- The rounds of the sweep over a list of keys: the keys of the list lose their expired
entry, the others keep theirs. -/
theorem Shard.get_foldl_sweepKey (now : Time) (k : String) :
    ∀ (keys : List String) (data : GoMap Entry),
      (keys.foldl (Shard.sweepKey now) data).get k
        = if k ∈ keys then (data.get k).filter (Entry.freshAt now) else data.get k
  | [], data => by simp
  | key :: keys, data => by
    rw [List.foldl_cons, Shard.get_foldl_sweepKey now k keys, Shard.get_sweepKey]
    by_cases hk : k = key
    · simp [hk, Option.filter_freshAt_idem]
    · simp [hk]

/-- The map after the sweep is the map before, restricted to the entries not expired. -/
theorem Shard.get_sweep (now : Time) (data : GoMap Entry) (k : String) :
    (Shard.sweep now data).get k = (data.get k).filter (Entry.freshAt now) := by
  rw [Shard.sweep, Shard.get_foldl_sweepKey]
  by_cases hk : k ∈ data.keys
  · simp [hk]
  · simp [hk, GoMap.get_eq_none_of_not_mem_keys data k hk, Option.filter]

theorem DB.entry_cleanupTick (db : DB) (now : Time) (k : String) :
    (db.cleanupTick now).entry k = (db.entry k).filter (Entry.freshAt now) := by
  simp [DB.entry, DB.cleanupTick, DB.getShard, Shard.get_sweep]

/-- C14: one sweep of the reaper at `now` leaves in every shard the map it had, restricted to
the entries that are not expired at `now`: a key is unbound after the sweep exactly when it
was unbound before or its entry had `ExpiresAt` strictly before `now`, and a key bound after
the sweep is bound to the entry it had, whose `ExpiresAt` is not before `now`.  The queues
are untouched. -/
theorem C14_sweep_removes_exactly_the_expired (db : DB) (now : Time) (i : Fin numShards)
    (k : String) :
    ((db.cleanupTick now).shards i).data.get k
      = ((db.shards i).data.get k).filter (Entry.freshAt now) ∧
    (((db.cleanupTick now).shards i).data.get k = none ↔
      ((db.shards i).data.get k = none ∨
        ∃ entry, (db.shards i).data.get k = some entry ∧ entry.ExpiresAt < now)) ∧
    (∀ entry, ((db.cleanupTick now).shards i).data.get k = some entry →
      (db.shards i).data.get k = some entry ∧ ¬ entry.ExpiresAt < now) ∧
    (db.cleanupTick now).queueShards = db.queueShards := by
  have h : ((db.cleanupTick now).shards i).data.get k
      = ((db.shards i).data.get k).filter (Entry.freshAt now) := by
    simp [DB.cleanupTick, Shard.get_sweep]
  rw [h]
  refine ⟨rfl, ?_, ?_, rfl⟩
  · cases (db.shards i).data.get k with
    | none => simp [Option.filter]
    | some entry =>
      by_cases hx : entry.ExpiresAt < now <;>
        simp [Option.filter, Entry.freshAt, Time.After, hx]
  · intro entry
    cases (db.shards i).data.get k with
    | none => simp [Option.filter]
    | some old =>
      by_cases hx : old.ExpiresAt < now
      · simp [Option.filter, Entry.freshAt, Time.After, hx]
      · simp only [Option.filter, Entry.freshAt, Time.After, hx, decide_False, Bool.not_false,
          if_true, Option.some.injEq]
        rintro rfl
        exact ⟨rfl, hx⟩

/-- C19: for all instants `now ≤ t`, `Get(k)` at `t` returns the same result after a sweep
of the reaper at `now` as before it. -/
theorem C19_sweep_invisible_to_get (db : DB) (k : String) (now t : Time) (h : now ≤ t) :
    ((db.cleanupTick now).Get k t).2 = (db.Get k t).2 := by
  rw [DB.Get_eq, DB.Get_eq, DB.entry_cleanupTick]
  cases db.entry k with
  | none => rfl
  | some entry =>
    by_cases hx : entry.ExpiresAt < now
    · have hxt : entry.ExpiresAt < t := lt_of_lt_of_le hx h
      simp [Option.filter, Entry.freshAt, Time.After, hx, hxt]
    · simp [Option.filter, Entry.freshAt, Time.After, hx]

/-- C19, witness: the entry of `"foo"`, written at instant `0`, expires after a hundred years;
a sweep one nanosecond later removes it, and `Get` one more nanosecond later returns
not-found before and after. -/
theorem C19_sweep_invisible_to_get_witness :
    ((dbFoo.cleanupTick (hundredYears + 1)).Get "foo" (hundredYears + 2)).2
      = (dbFoo.Get "foo" (hundredYears + 2)).2 :=
  C19_sweep_invisible_to_get dbFoo "foo" (hundredYears + 1) (hundredYears + 2) (by decide)

/-- C20: when the key holds an entry whose `ExpiresAt` is strictly before `now`, `Get` at
`now` returns not-found, and yet `Set(k, v, e, nx, xx=false)` at `now` fails with "key
already exists" for every `v`, `e` and `nx`, and returns the database unchanged. -/
theorem C20_set_existence_test_ignores_expiry (db : DB) (k : String) (v : Payload) (e : Int)
    (nx : Bool) (now : Time) (old : Entry)
    (hk : db.entry k = some old) (hx : old.ExpiresAt < now) :
    (db.Get k now).2 = none ∧
    db.Set k v e nx false now = (db, some Err.keyAlreadyExists) := by
  constructor
  · rw [DB.Get_eq, hk]
    simp [hx]
  · unfold DB.entry at hk
    cases nx <;> simp [DB.Set, hk]

/-- C20, witness: the entry of `"foo"`, written at instant `0`, expires after a hundred years;
one nanosecond later it is not found and still cannot be set. -/
theorem C20_set_existence_test_ignores_expiry_witness :
    (dbFoo.Get "foo" (hundredYears + 1)).2 = none ∧
    dbFoo.Set "foo" "new" 60 true false (hundredYears + 1)
      = (dbFoo, some Err.keyAlreadyExists) :=
  C20_set_existence_test_ignores_expiry dbFoo "foo" "new" 60 true (hundredYears + 1)
    { Value := "old", ExpiresAt := hundredYears } (by decide) (by decide)

/-! ## Sharding -/

theorem fnv32aWrite_eq_fnv1a32Rev (bytes : List Nat) :
    fnv32aWrite fnvOffset32 bytes = fnv1a32Rev bytes.reverse := by
  induction bytes using List.reverseRecOn with
  | nil => rfl
  | append_singleton bytes b ih =>
    rw [List.reverse_append, List.reverse_singleton, List.singleton_append, fnv1a32Rev, ← ih]
    simp [fnv32aWrite, List.foldl_append]

/-- C15: `hashKey(key)` is the 32-bit FNV-1a hash of the bytes of the key, reduced modulo
`256`; it is below `numShards = 256`, so that it is an index of both shard arrays, and
`getShard` and `getQueueShard` take the shard at that same index. -/
theorem C15_hashKey_is_fnv1a_mod_shards (key : String) :
    hashKey key = fnv1a32 (keyBytes key) % 256 ∧
    hashKey key < numShards ∧
    numShards = 256 ∧
    (shardIndex key).val = hashKey key ∧
    (∀ db : DB, db.getShard key = db.shards (shardIndex key) ∧
      db.getQueueShard key = db.queueShards (shardIndex key)) := by
  refine ⟨?_, Nat.mod_lt _ (by decide), rfl, rfl, fun db => ⟨rfl, rfl⟩⟩
  rw [hashKey, fnv32aWrite_eq_fnv1a32Rev]
  rfl

/-! ## Validation of `SET` -/

/-- Options that the specification admits with at most one condition, none if one was seen
before, pass the loop of `validateSET`. -/
theorem validateSETOptions_complete (ToUpper : String → String) (opts : List String) (c : Nat)
    (h : SetOptions ToUpper opts c) :
    ∀ condition : String, c + (if condition = "" then 0 else 1) ≤ 1 →
      validateSETOptions ToUpper opts condition = none := by
  induction h with
  | nil => intro condition _; rfl
  | ex t num rest c ht herr hval _ ih =>
    intro condition hc
    have hneg : ¬ (Atoi num).1 < 0 := not_lt.mpr hval
    simp [validateSETOptions, ht, herr, hneg, ih condition hc]
  | cond t rest c ht _ ih =>
    intro condition hc
    have hne : ToUpper t ≠ "EX" := by
      rcases ht with ht | ht <;> rw [ht] <;> decide
    have hcond : condition = "" := by
      by_contra hcon
      simp [hcon] at hc
    have hc0 : c = 0 := by
      simp [hcond] at hc
      exact hc
    have hnew : ToUpper t ≠ "" := by
      rcases ht with ht | ht <;> rw [ht] <;> decide
    have hrec := ih (ToUpper t) (by simp [hc0, hnew])
    rw [validateSETOptions.eq_def]
    simp [hne, ht, hcond, hrec]

/-- Options that pass the loop of `validateSET` are options that the specification admits,
with at most one condition, none if one was seen before. -/
theorem validateSETOptions_sound (ToUpper : String → String) :
    ∀ (n : Nat) (opts : List String) (condition : String), opts.length ≤ n →
      validateSETOptions ToUpper opts condition = none →
      ∃ c, SetOptions ToUpper opts c ∧ c + (if condition = "" then 0 else 1) ≤ 1 := by
  intro n
  induction n with
  | zero =>
    intro opts condition hlen _
    have : opts = [] := List.length_eq_zero.mp (Nat.le_zero.mp hlen)
    subst this
    exact ⟨0, SetOptions.nil, by split <;> simp⟩
  | succ n ih =>
    intro opts condition hlen h
    cases opts with
    | nil => exact ⟨0, SetOptions.nil, by split <;> simp⟩
    | cons a rest =>
      rw [validateSETOptions.eq_def] at h
      simp only at h
      by_cases hex : ToUpper a = "EX"
      · simp only [hex, if_true] at h
        cases rest with
        | nil => simp at h
        | cons num rest2 =>
          simp only at h
          by_cases hneg : (Atoi num).1 < 0
          · simp [hneg] at h
          · by_cases herr : (Atoi num).2 = none
            · simp only [hneg, herr, if_false, ne_eq, not_true_eq_false] at h
              have hlen2 : rest2.length ≤ n := by
                simp only [List.length_cons] at hlen
                omega
              obtain ⟨c, hs, hc⟩ := ih rest2 condition hlen2 h
              exact ⟨c, SetOptions.ex a num rest2 c hex herr (not_lt.mp hneg) hs, hc⟩
            · simp [hneg, herr] at h
      · simp only [hex, if_false] at h
        by_cases hcond : ToUpper a = "NX" ∨ ToUpper a = "XX"
        · simp only [hcond, if_true] at h
          by_cases hseen : condition = ""
          · simp only [hseen, ne_eq, not_true_eq_false, if_false] at h
            have hlen2 : rest.length ≤ n := by
              simp only [List.length_cons] at hlen
              omega
            obtain ⟨c, hs, hc⟩ := ih rest (ToUpper a) hlen2 h
            have hnew : ToUpper a ≠ "" := by
              rcases hcond with ht | ht <;> rw [ht] <;> decide
            simp only [hnew, if_false] at hc
            exact ⟨c + 1, SetOptions.cond a rest c hcond hs, by simp [hseen]; omega⟩
          · simp [hseen] at h
        · simp [hcond] at h

/-- The loop of `validateSET` accepts exactly the options that the specification admits with
at most one condition. -/
theorem validateSETOptions_eq_none_iff (ToUpper : String → String) (opts : List String) :
    validateSETOptions ToUpper opts "" = none ↔ ∃ c, c ≤ 1 ∧ SetOptions ToUpper opts c := by
  constructor
  · intro h
    obtain ⟨c, hs, hc⟩ := validateSETOptions_sound ToUpper opts.length opts "" (le_refl _) h
    exact ⟨c, by simpa using hc, hs⟩
  · rintro ⟨c, hc, hs⟩
    exact validateSETOptions_complete ToUpper opts c hs "" (by simpa using hc)

/-- Options read as the specification describes them are read in one way only: what follows
admitted options is admitted on its own, and the conditions add up. -/
theorem SetOptions.split (ToUpper : String → String) (pre : List String) (c : Nat)
    (h : SetOptions ToUpper pre c) :
    ∀ (suffix : List String) (c2 : Nat), SetOptions ToUpper (pre ++ suffix) c2 →
      ∃ c3, SetOptions ToUpper suffix c3 ∧ c2 = c + c3 := by
  induction h with
  | nil => exact fun suffix c2 h2 => ⟨c2, h2, by simp⟩
  | ex t num rest c ht _ _ _ ih =>
    intro suffix c2 h2
    simp only [List.cons_append] at h2
    cases h2 with
    | ex _ _ _ _ _ _ _ h3 => exact ih suffix c2 h3
    | cond _ _ c4 ht2 _ =>
      rcases ht2 with ht2 | ht2 <;> rw [ht] at ht2 <;> exact absurd ht2 (by decide)
  | cond t rest c ht _ ih =>
    intro suffix c2 h2
    simp only [List.cons_append] at h2
    generalize hrs : rest ++ suffix = following at h2
    cases h2 with
    | ex _ _ _ _ ht2 _ _ _ =>
      rcases ht with ht | ht <;> rw [ht2] at ht <;> exact absurd ht (by decide)
    | cond _ _ c4 _ h3 =>
      obtain ⟨c3, hs, hc⟩ := ih suffix c4 (hrs ▸ h3)
      exact ⟨c3, hs, by omega⟩

/-- On a command whose first token is `SET` in any case, `ValidateInput` is the length test
of `validateSET` followed by its loop over the options. -/
theorem ValidateInput_SET (ToUpper : String → String) (cmd : String) (tail : List String)
    (hcmd : ToUpper cmd = "SET") :
    ValidateInput ToUpper (cmd :: tail) = none ↔
      3 ≤ (cmd :: tail).length ∧ (cmd :: tail).length ≤ 6 ∧
        validateSETOptions ToUpper ((cmd :: tail).drop 3) "" = none := by
  by_cases hlen : (cmd :: tail).length < 3 ∨ (cmd :: tail).length > 6
  · have hno : ¬ (3 ≤ (cmd :: tail).length ∧ (cmd :: tail).length ≤ 6 ∧
        validateSETOptions ToUpper ((cmd :: tail).drop 3) "" = none) := by
      rintro ⟨h1, h2, _⟩
      omega
    simp only [hno, iff_false]
    have hlen2 : tail.length + 1 < 3 ∨ 6 < tail.length + 1 := by simpa using hlen
    simp [ValidateInput, validateSET, hcmd, hlen2]
  · have h1 : 3 ≤ (cmd :: tail).length := by omega
    have h2 : (cmd :: tail).length ≤ 6 := by omega
    simp only [h1, h2, true_and]
    have hlen2 : ¬ (tail.length + 1 < 3 ∨ 6 < tail.length + 1) := by simpa using hlen
    simp [ValidateInput, validateSET, hcmd, hlen2]

/-- C16: for a token list whose first token is `SET` in any case, `ValidateInput` accepts it
exactly when it has between 3 and 6 tokens and the tokens after the value are, in any order,
at most one condition token (`NX` or `XX`, any case) and groups of `EX` followed by a token
that parses as an integer that is not negative.  In particular it rejects the command when,
after options that are admitted, there comes a second condition token, an `EX` with no token
after it, an `EX` followed by a token that is not such an integer, or any other token. -/
theorem C16_validate_set (ToUpper : String → String) (cmd : String) (tail : List String)
    (hcmd : ToUpper cmd = "SET") :
    (ValidateInput ToUpper (cmd :: tail) = none ↔
      3 ≤ (cmd :: tail).length ∧ (cmd :: tail).length ≤ 6 ∧
        ∃ c, c ≤ 1 ∧ SetOptions ToUpper ((cmd :: tail).drop 3) c) ∧
    (∀ (key value : String) (pre : List String) (c : Nat) (t : String) (rest : List String),
      tail = key :: value :: (pre ++ t :: rest) → SetOptions ToUpper pre c →
      ((1 ≤ c ∧ (ToUpper t = "NX" ∨ ToUpper t = "XX")) ∨
        (ToUpper t = "EX" ∧ rest = []) ∨
        (ToUpper t = "EX" ∧ ∃ num rest2, rest = num :: rest2 ∧
          ¬ ((Atoi num).2 = none ∧ 0 ≤ (Atoi num).1)) ∨
        (ToUpper t ≠ "EX" ∧ ToUpper t ≠ "NX" ∧ ToUpper t ≠ "XX")) →
      ValidateInput ToUpper (cmd :: tail) ≠ none) := by
  have hiff : ValidateInput ToUpper (cmd :: tail) = none ↔
      3 ≤ (cmd :: tail).length ∧ (cmd :: tail).length ≤ 6 ∧
        ∃ c, c ≤ 1 ∧ SetOptions ToUpper ((cmd :: tail).drop 3) c := by
    rw [ValidateInput_SET ToUpper cmd tail hcmd, validateSETOptions_eq_none_iff]
  refine ⟨hiff, ?_⟩
  rintro key value pre c t rest rfl hpre hbad hacc
  obtain ⟨_, _, c2, hc2, hopts⟩ := hiff.mp hacc
  have hdrop : (cmd :: key :: value :: (pre ++ t :: rest)).drop 3 = pre ++ t :: rest := rfl
  rw [hdrop] at hopts
  obtain ⟨c3, hsuffix, hsum⟩ := SetOptions.split ToUpper pre c hpre (t :: rest) c2 hopts
  rcases hbad with ⟨hc, ht⟩ | ⟨ht, rfl⟩ | ⟨ht, num, rest2, rfl, hnum⟩ | ⟨h1, h2, h3⟩
  · cases hsuffix with
    | ex _ _ _ _ ht2 _ _ _ =>
      rcases ht with ht | ht <;> rw [ht2] at ht <;> exact absurd ht (by decide)
    | cond _ _ c4 _ _ => omega
  · cases hsuffix with
    | cond _ _ c4 ht2 _ =>
      rcases ht2 with ht2 | ht2 <;> rw [ht] at ht2 <;> exact absurd ht2 (by decide)
  · cases hsuffix with
    | ex _ _ _ _ _ herr hval _ => exact hnum ⟨herr, hval⟩
    | cond _ _ c4 ht2 _ =>
      rcases ht2 with ht2 | ht2 <;> rw [ht] at ht2 <;> exact absurd ht2 (by decide)
  · cases hsuffix with
    | ex _ _ _ _ ht2 _ _ _ => exact h1 ht2
    | cond _ _ c4 ht2 _ => exact ht2.elim h2 h3

/-- C16, witness: `set k v ex 10 nx` is accepted, by the characterisation, since `ex 10` is
an `EX` group and `nx` the one condition. -/
theorem C16_validate_set_witness :
    ValidateInput asciiUpper ["set", "k", "v", "ex", "10", "nx"] = none :=
  (C16_validate_set asciiUpper "set" ["k", "v", "ex", "10", "nx"] (by decide)).1.mpr
    ⟨by decide, by decide, 1, le_refl 1,
      SetOptions.ex "ex" "10" ["nx"] 1 (by decide) (by decide) (by decide)
        (SetOptions.cond "nx" [] 0 (Or.inl (by decide)) SetOptions.nil)⟩

/-! ## Validation of `BQPOP` -/

/-- C17, the code at the failing input and around it: `BQPOP q 1.5` is rejected with "expiry
time must be an integer", as are `BQPOP q 0.5` and `BQPOP q 1e3`, where the timeout is a
floating-point number that is not negative; `BQPOP q 0` and `BQPOP q 5` are accepted,
`BQPOP q -1` and `BQPOP q -1.5` are rejected, and so is a `BQPOP` with two or four tokens. -/
theorem C17_validate_bqpop_rejects_fractions :
    ValidateInput asciiUpper ["BQPOP", "q", "1.5"] = some "expiry time must be an integer" ∧
    ValidateInput asciiUpper ["BQPOP", "q", "0.5"] = some "expiry time must be an integer" ∧
    ValidateInput asciiUpper ["BQPOP", "q", "1e3"] = some "expiry time must be an integer" ∧
    ValidateInput asciiUpper ["BQPOP", "q", "0"] = none ∧
    ValidateInput asciiUpper ["BQPOP", "q", "5"] = none ∧
    ValidateInput asciiUpper ["BQPOP", "q", "-1"]
      = some "expiry time must be a positive integer" ∧
    ValidateInput asciiUpper ["BQPOP", "q", "-1.5"] = some "expiry time must be an integer" ∧
    ValidateInput asciiUpper ["BQPOP", "q"]
      = some "invalid BQPOP command format. BQPOP <key> <timeout>" ∧
    ValidateInput asciiUpper ["BQPOP", "q", "5", "6"]
      = some "invalid BQPOP command format. BQPOP <key> <timeout>" := by
  decide

end DBCore
